import Mathlib

/-!
# Verification development for the logging-operator validation code

Shallow embedding of

* `pkg/validation/hash.go` (`ParseFluentdHash`, `ValidateFluentdRegex`),
* `pkg/sdk/model/filter/parser_validation.go` (`validateParserConfig`,
  `validateParseSection`, `validateSingleParseSection`),
* `pkg/sdk/model/filter/stdout_validation.go`,
* `pkg/sdk/api/v1beta1/flow_webhook.go` (`validateFlowSpec`, `validateFilters`,
  `validateFilter`).

Modelling conventions.

* A Go `string` is a Lean `String`.  The code only ever splits on the ASCII
  separators `,` and `:` and tests the ASCII prefix `{`, so splitting a valid
  UTF-8 string by bytes and by characters agree.
* A Go `map[string]string` is an association list with pairwise distinct keys
  (`GoMap`); the `nil` map and the empty map are both `[]` (the code only
  ranges over the map).  The order in which `range` visits the entries of a map
  is not fixed by Go, so every function that ranges over a map takes the
  visiting order as an explicit argument (`RangeOrder`).
* `json.Unmarshal` belongs to the Go standard library. `ParseFluentdHash` takes
  it as an argument (`JsonUnmarshal`) that returns the members of the decoded
  object in document order, or the decoding failure; `jsonUnmarshal` is its
  model, built on the scanner of `encoding/json`. Only the text of its error
  is left open. The scanner's limit on the nesting depth is left out: it can
  only be reached inside a member that is an array or an object, and such a
  member makes decoding into a `map[string]string` fail in any case.
* A `field.ErrorList` is a list of `FieldError`; appending to `allErrs` is list
  concatenation.  A `*field.Path` is the list of its segments.  Messages built
  with `fmt.Sprintf`/`fmt.Errorf` are kept in structured form (`Detail`), which
  retains every value that is formatted into the message.
-/

namespace LoggingOperator

/-! ## Go standard library: strings -/

/-- Pieces of a character list between occurrences of the separator `sep`;
the character-level worker of `strings.Split`. -/
def splitChars (sep : Char) : List Char → List (List Char)
  | [] => [[]]
  | c :: cs =>
    if c = sep then [] :: splitChars sep cs
    else
      match splitChars sep cs with
      | [] => [[c]]
      | seg :: rest => (c :: seg) :: rest

/-- Go `strings.Split(s, sep)` for a one-character separator: all pieces of `s`
between occurrences of `sep` (the empty string gives one empty piece). -/
def stringsSplit (s : String) (sep : Char) : List String :=
  (splitChars sep s.data).map String.mk

/-- Text before and after the first occurrence of `sep`, if there is one. -/
def cutChars (sep : Char) : List Char → Option (List Char × List Char)
  | [] => none
  | c :: cs =>
    if c = sep then some ([], cs)
    else (cutChars sep cs).map fun p => (c :: p.1, p.2)

/-- Go `strings.SplitN(s, sep, 2)` for a one-character separator: `[s]` when
`s` has no `sep`, otherwise the text before the first `sep` and the whole text
after it. -/
def stringsSplitN2 (s : String) (sep : Char) : List String :=
  match cutChars sep s.data with
  | none => [s]
  | some (before, after) => [String.mk before, String.mk after]

/-- Go `strings.HasPrefix(s, pre)`. -/
def stringsHasPrefix (s pre : String) : Bool :=
  pre.data.isPrefixOf s.data

/-! ## k8s.io/apimachinery: string sets -/

/-- A `sets.String`, given by the elements passed to `sets.NewString`. -/
structure StringSet where
  elems : List String
deriving Repr

/-- Set membership, `sets.String.Has`. -/
def StringSet.Has (s : StringSet) (x : String) : Bool :=
  s.elems.contains x

/-- Lexicographic comparison of character lists by code point, which for
UTF-8 text is the byte-wise comparison of Go strings. -/
def leChars : List Char → List Char → Bool
  | [], _ => true
  | _ :: _, [] => false
  | a :: as, b :: bs => decide (a.toNat < b.toNat) || (decide (a = b) && leChars as bs)

/-- Go string comparison `a <= b`. -/
def stringLE (a b : String) : Bool :=
  leChars a.data b.data

/-- Sorted elements of the set, `sets.String.List`. -/
def StringSet.List (s : StringSet) : List String :=
  s.elems.dedup.insertionSort (fun a b => stringLE a b)

/-! ## Go maps -/

/-- A `map[string]string` as an association list with distinct keys. -/
abbrev GoMap := List (String × String)

/-- Map assignment `m[k] = v`: overwrite the entry of `k` or add a new one. -/
def GoMap.set : GoMap → String → String → GoMap
  | [], k, v => [(k, v)]
  | (k', v') :: rest, k, v =>
    if k' = k then (k, v) :: rest else (k', v') :: GoMap.set rest k v

/-- Map lookup `m[k]`. -/
def GoMap.get? : GoMap → String → Option String
  | [], _ => none
  | (k', v') :: rest, k => if k' = k then some v' else GoMap.get? rest k

/-- One way a `range` statement may visit the entries of a map: some
permutation of the entries. -/
structure RangeOrder where
  order : GoMap → List (String × String)
  perm : ∀ m, (order m).Perm m

/-- The visiting order that follows the order of first assignment. -/
def RangeOrder.insertion : RangeOrder := ⟨fun m => m, fun _ => List.Perm.refl _⟩

/-- The visiting order opposite to `RangeOrder.insertion`. -/
def RangeOrder.reversed : RangeOrder := ⟨fun m => m.reverse, fun m => List.reverse_perm m⟩

/-- The visiting orders used by one call of `validateParseSection`: one for the
section itself and one for each nested pattern, by index. -/
structure SectionOrders where
  own : RangeOrder
  patterns : Nat → RangeOrder

/-- All map iterations follow the same order `o`. -/
def SectionOrders.const (o : RangeOrder) : SectionOrders := ⟨o, fun _ => o⟩

/-- The standard library function `json.Unmarshal` into a `map[string]string`:
the members of the object in document order, or the failure message. -/
abbrev JsonUnmarshal := String → Except String (List (String × String))

/-! ## Go standard library: encoding/json

The scanner of `encoding/json` (its `step` functions and its stack of parse
states) and what decoding into a `map[string]string` keeps of a document. The
scanner reads the document character by character; here it also collects, on
the way, the members of the top-level object. -/

/-- The `step` functions of the scanner. -/
inductive ScanStep where
  | beginValueOrEmpty
  | beginValue
  | beginStringOrEmpty
  | beginString
  | endValue
  | endTop
  | inString
  | inStringEsc
  | inStringEscU
  | inStringEscU1
  | inStringEscU12
  | inStringEscU123
  | numNeg
  | num1
  | num0
  | numDot
  | numDot0
  | numE
  | numESign
  | numE0
  | litT
  | litTr
  | litTru
  | litF
  | litFa
  | litFal
  | litFals
  | litN
  | litNu
  | litNul
deriving DecidableEq, Repr

/-- The entries of the scanner's stack `parseState`. -/
inductive ParseState where
  | objectKey
  | objectValue
  | arrayValue
deriving DecidableEq, Repr

/-- A piece of a string literal: a character (written as itself or as a
two-character escape) or the code of a `\u` escape. -/
inductive StringUnit where
  | char (c : Char)
  | escU (code : Nat)
deriving DecidableEq, Repr

/-- What decoding into a Go `string` distinguishes in a JSON value: a string
(unquoted), `null`, or anything else (number, boolean, array, object). -/
inductive JsonValue where
  | string (s : String)
  | null
  | other
deriving DecidableEq, Repr

/-- The kind of a top-level value. -/
inductive JsonTop where
  | object
  | null
  | other
deriving DecidableEq, Repr

/-- A well-formed document as decoding into a `map[string]string` sees it. -/
inductive JsonDocument where
  | object (members : List (String × JsonValue))
  | null
  | other
deriving DecidableEq, Repr

/-- The scanner: its step, its stack of parse states (innermost first) and its
`endTop` flag, with the pieces of the string literal being read (last first),
the code of the `\u` escape being read, the last key of the top-level object,
the kind of the top-level value and the members of the top-level object read
so far (last first). -/
structure Scanner where
  step : ScanStep := ScanStep.beginValue
  parseState : List ParseState := []
  endTop : Bool := false
  units : List StringUnit := []
  hex : Nat := 0
  key : String := ""
  top : Option JsonTop := none
  members : List (String × JsonValue) := []
deriving DecidableEq, Repr

/-- The scanner's `isSpace`. -/
def isSpace (c : Char) : Bool :=
  c = ' ' || c = '\t' || c = '\r' || c = '\n'

/-- A decimal digit. -/
def isDigit (c : Char) : Bool :=
  decide (48 ≤ c.toNat ∧ c.toNat ≤ 57)

/-- The value of a hexadecimal digit, in either case. -/
def hexValue (c : Char) : Option Nat :=
  if 48 ≤ c.toNat ∧ c.toNat ≤ 57 then some (c.toNat - 48)
  else if 97 ≤ c.toNat ∧ c.toNat ≤ 102 then some (c.toNat - 87)
  else if 65 ≤ c.toNat ∧ c.toNat ≤ 70 then some (c.toNat - 55)
  else none

/-- The unquoting of a string literal (`unquote`): characters stand for
themselves, a `\u` escape for its character, a high surrogate followed by a
low surrogate for the character of the pair, and any other surrogate for the
replacement character U+FFFD. `pending` is a high surrogate just read. -/
def decodeUnits : Option Nat → List StringUnit → List Char
  | none, [] => []
  | some _, [] => [Char.ofNat 0xFFFD]
  | none, StringUnit.char c :: rest => c :: decodeUnits none rest
  | some _, StringUnit.char c :: rest => Char.ofNat 0xFFFD :: c :: decodeUnits none rest
  | none, StringUnit.escU n :: rest =>
    if 0xD800 ≤ n ∧ n < 0xDC00 then decodeUnits (some n) rest
    else if 0xDC00 ≤ n ∧ n < 0xE000 then Char.ofNat 0xFFFD :: decodeUnits none rest
    else Char.ofNat n :: decodeUnits none rest
  | some hi, StringUnit.escU n :: rest =>
    if 0xDC00 ≤ n ∧ n < 0xE000 then
      Char.ofNat (0x10000 + (hi - 0xD800) * 0x400 + (n - 0xDC00)) :: decodeUnits none rest
    else if 0xD800 ≤ n ∧ n < 0xDC00 then Char.ofNat 0xFFFD :: decodeUnits (some n) rest
    else Char.ofNat 0xFFFD :: Char.ofNat n :: decodeUnits none rest

/-- The scanner's `popParseState`. -/
def Scanner.pop (s : Scanner) : Scanner :=
  match s.parseState.tail with
  | [] => { s with parseState := [], step := ScanStep.endTop, endTop := true }
  | rest => { s with parseState := rest, step := ScanStep.endValue }

/-- The step `stateEndValue`; `none` is the scanner's error. -/
def Scanner.endValue (s : Scanner) (c : Char) : Option Scanner :=
  match s.parseState with
  | [] => if isSpace c then some { s with step := ScanStep.endTop, endTop := true } else none
  | ps :: rest =>
    if isSpace c then some { s with step := ScanStep.endValue }
    else
      match ps with
      | ParseState.objectKey =>
        if c = ':' then
          some { s with parseState := ParseState.objectValue :: rest, step := ScanStep.beginValue }
        else none
      | ParseState.objectValue =>
        if c = ',' then
          some { s with parseState := ParseState.objectKey :: rest, step := ScanStep.beginString }
        else if c = '}' then some s.pop
        else none
      | ParseState.arrayValue =>
        if c = ',' then some { s with step := ScanStep.beginValue }
        else if c = ']' then some s.pop
        else none

/-- Decoding: a value whose first character is `c` begins. At the top level
this fixes the kind of the document; as a member of the top-level object a
`null` or a value that is no string is recorded under the last key (a string
is recorded when it ends). -/
def Scanner.noteValue (s : Scanner) (c : Char) : Scanner :=
  match s.parseState with
  | [] =>
    { s with top := some (if c = '\x7b' then JsonTop.object
        else if c = 'n' then JsonTop.null else JsonTop.other) }
  | [ParseState.objectValue] =>
    if c = '"' then s
    else { s with members := (s.key, if c = 'n' then JsonValue.null else JsonValue.other)
        :: s.members }
  | _ => s

/-- The step `stateBeginValue`. -/
def Scanner.beginValue (s : Scanner) (c : Char) : Option Scanner :=
  if isSpace c then some s
  else if c = '\x7b' then
    some { s.noteValue c with
      step := ScanStep.beginStringOrEmpty, parseState := ParseState.objectKey :: s.parseState }
  else if c = '[' then
    some { s.noteValue c with
      step := ScanStep.beginValueOrEmpty, parseState := ParseState.arrayValue :: s.parseState }
  else if c = '"' then some { s.noteValue c with step := ScanStep.inString, units := [] }
  else if c = '-' then some { s.noteValue c with step := ScanStep.numNeg }
  else if c = '0' then some { s.noteValue c with step := ScanStep.num0 }
  else if c = 't' then some { s.noteValue c with step := ScanStep.litT }
  else if c = 'f' then some { s.noteValue c with step := ScanStep.litF }
  else if c = 'n' then some { s.noteValue c with step := ScanStep.litN }
  else if isDigit c then some { s.noteValue c with step := ScanStep.num1 }
  else none

/-- The step `stateBeginString`. -/
def Scanner.beginString (s : Scanner) (c : Char) : Option Scanner :=
  if isSpace c then some s
  else if c = '"' then some { s with step := ScanStep.inString, units := [] }
  else none

/-- Decoding: a string literal ends. As a key of the top-level object it
becomes the last key; as a member of the top-level object it is recorded under
the last key. The next step is `stateEndValue`. -/
def Scanner.endString (s : Scanner) : Scanner :=
  let text := String.mk (decodeUnits none s.units.reverse)
  match s.parseState with
  | [ParseState.objectKey] => { s with step := ScanStep.endValue, key := text }
  | [ParseState.objectValue] =>
    { s with step := ScanStep.endValue, members := (s.key, JsonValue.string text) :: s.members }
  | _ => { s with step := ScanStep.endValue }

/-- The step `state0`, also the end of `state1`. -/
def Scanner.afterInteger (s : Scanner) (c : Char) : Option Scanner :=
  if c = '.' then some { s with step := ScanStep.numDot }
  else if c = 'e' ∨ c = 'E' then some { s with step := ScanStep.numE }
  else s.endValue c

/-- The step `stateESign`, also the end of `stateE`. -/
def Scanner.afterExponentSign (s : Scanner) (c : Char) : Option Scanner :=
  if isDigit c then some { s with step := ScanStep.numE0 } else none

/-- The next scanner after reading the character `c`, `s.step(s, c)`; `none`
is the scanner's error. -/
def Scanner.next (s : Scanner) (c : Char) : Option Scanner :=
  match s.step with
  | ScanStep.beginValueOrEmpty =>
    if isSpace c then some s
    else if c = ']' then s.endValue c
    else s.beginValue c
  | ScanStep.beginValue => s.beginValue c
  | ScanStep.beginStringOrEmpty =>
    if isSpace c then some s
    else if c = '\x7d' then
      Scanner.endValue { s with parseState := ParseState.objectValue :: s.parseState.tail } c
    else s.beginString c
  | ScanStep.beginString => s.beginString c
  | ScanStep.endValue => s.endValue c
  | ScanStep.endTop => if isSpace c then some s else none
  | ScanStep.inString =>
    if c = '"' then some s.endString
    else if c = '\\' then some { s with step := ScanStep.inStringEsc }
    else if c.toNat < 0x20 then none
    else some { s with units := StringUnit.char c :: s.units }
  | ScanStep.inStringEsc =>
    if c = 'b' then
      some { s with step := ScanStep.inString, units := StringUnit.char (Char.ofNat 8) :: s.units }
    else if c = 'f' then
      some { s with step := ScanStep.inString, units := StringUnit.char (Char.ofNat 12) :: s.units }
    else if c = 'n' then
      some { s with step := ScanStep.inString, units := StringUnit.char (Char.ofNat 10) :: s.units }
    else if c = 'r' then
      some { s with step := ScanStep.inString, units := StringUnit.char (Char.ofNat 13) :: s.units }
    else if c = 't' then
      some { s with step := ScanStep.inString, units := StringUnit.char (Char.ofNat 9) :: s.units }
    else if c = '\\' ∨ c = '/' ∨ c = '"' then
      some { s with step := ScanStep.inString, units := StringUnit.char c :: s.units }
    else if c = 'u' then some { s with step := ScanStep.inStringEscU, hex := 0 }
    else none
  | ScanStep.inStringEscU =>
    (hexValue c).map fun d => { s with step := ScanStep.inStringEscU1, hex := d }
  | ScanStep.inStringEscU1 =>
    (hexValue c).map fun d => { s with step := ScanStep.inStringEscU12, hex := s.hex * 16 + d }
  | ScanStep.inStringEscU12 =>
    (hexValue c).map fun d => { s with step := ScanStep.inStringEscU123, hex := s.hex * 16 + d }
  | ScanStep.inStringEscU123 =>
    (hexValue c).map fun d =>
      { s with step := ScanStep.inString, units := StringUnit.escU (s.hex * 16 + d) :: s.units }
  | ScanStep.numNeg =>
    if c = '0' then some { s with step := ScanStep.num0 }
    else if isDigit c then some { s with step := ScanStep.num1 }
    else none
  | ScanStep.num1 => if isDigit c then some s else s.afterInteger c
  | ScanStep.num0 => s.afterInteger c
  | ScanStep.numDot => if isDigit c then some { s with step := ScanStep.numDot0 } else none
  | ScanStep.numDot0 =>
    if isDigit c then some s
    else if c = 'e' ∨ c = 'E' then some { s with step := ScanStep.numE }
    else s.endValue c
  | ScanStep.numE =>
    if c = '+' ∨ c = '-' then some { s with step := ScanStep.numESign }
    else s.afterExponentSign c
  | ScanStep.numESign => s.afterExponentSign c
  | ScanStep.numE0 => if isDigit c then some s else s.endValue c
  | ScanStep.litT => if c = 'r' then some { s with step := ScanStep.litTr } else none
  | ScanStep.litTr => if c = 'u' then some { s with step := ScanStep.litTru } else none
  | ScanStep.litTru => if c = 'e' then some { s with step := ScanStep.endValue } else none
  | ScanStep.litF => if c = 'a' then some { s with step := ScanStep.litFa } else none
  | ScanStep.litFa => if c = 'l' then some { s with step := ScanStep.litFal } else none
  | ScanStep.litFal => if c = 's' then some { s with step := ScanStep.litFals } else none
  | ScanStep.litFals => if c = 'e' then some { s with step := ScanStep.endValue } else none
  | ScanStep.litN => if c = 'u' then some { s with step := ScanStep.litNu } else none
  | ScanStep.litNu => if c = 'l' then some { s with step := ScanStep.litNul } else none
  | ScanStep.litNul => if c = 'l' then some { s with step := ScanStep.endValue } else none

/-- The scanner after reading all the characters, as `checkValid` runs it. -/
def Scanner.run : Scanner → List Char → Option Scanner
  | s, [] => some s
  | s, c :: cs =>
    match s.next c with
    | none => none
    | some s' => Scanner.run s' cs

/-- The scanner's `eof`: the document may end here, once a space has been
read if the top-level value has not ended yet. -/
def Scanner.eof (s : Scanner) : Option Scanner :=
  if s.endTop then some s
  else
    match s.next ' ' with
    | none => none
    | some s' => if s'.endTop then some s' else none

/-- The document as decoding into a `map[string]string` sees it; `none` when
the scanner rejects it (a `SyntaxError`). -/
def jsonDocument (doc : String) : Option JsonDocument :=
  match (Scanner.run {} doc.data).bind Scanner.eof with
  | none => none
  | some s =>
    match s.top with
    | some JsonTop.object => some (JsonDocument.object s.members.reverse)
    | some JsonTop.null => some JsonDocument.null
    | _ => some JsonDocument.other

/-- The string stored for a member: the string itself, the empty string (the
zero value, left as it is) for `null`, nothing for a value of another kind
(an `UnmarshalTypeError`). -/
def JsonValue.asString : JsonValue → Option String
  | JsonValue.string s => some s
  | JsonValue.null => some ""
  | JsonValue.other => none

/-- `json.Unmarshal` into a `map[string]string`: the members it stores, in
document order, or its failure. It fails on a document the scanner rejects, on
a top-level value that is neither an object nor `null`, and on an object with
a member that is neither a string nor `null`. The text of its error is not
modelled: `message` gives it for each document. -/
def jsonUnmarshal (message : String → String) : JsonUnmarshal :=
  fun doc =>
    match jsonDocument doc with
    | none => Except.error (message doc)
    | some JsonDocument.other => Except.error (message doc)
    | some JsonDocument.null => Except.ok []
    | some (JsonDocument.object members) =>
      if members.all fun m => m.2.asString.isSome then
        Except.ok (members.map fun m => (m.1, m.2.asString.getD ""))
      else Except.error (message doc)

/-! ## pkg/validation/hash.go -/

/-- Errors returned by `ParseFluentdHash`. -/
inductive HashError where
  /-- Failure reported by `json.Unmarshal`, with its message. -/
  | json (msg : String)
  /-- The error `fmt.Errorf("hash field %q missing value", field)`. -/
  | missingValue (field : String)
deriving DecidableEq, Repr

/-- The loop over the segments of a string based hash, started with the map
`results`. -/
def parseSegments : List String → GoMap → GoMap × Option HashError
  | [], results => (results, none)
  | segment :: rest, results =>
    let parts := stringsSplitN2 segment ':'
    if parts.length < 2 then
      ([], some (HashError.missingValue (parts.getD 0 "")))
    else
      parseSegments rest (results.set (parts.getD 0 "") (parts.getD 1 ""))

/-- `ParseFluentdHash(value)`: the returned map together with the returned
error (`none` for a `nil` error). -/
def ParseFluentdHash (jsonUnmarshal : JsonUnmarshal) (value : String) :
    GoMap × Option HashError :=
  if value = "" then
    ([], none)
  else if stringsHasPrefix value "\x7b" then
    match jsonUnmarshal value with
    | Except.error msg => ([], some (HashError.json msg))
    | Except.ok members => (members.foldl (fun results kv => results.set kv.1 kv.2) [], none)
  else
    parseSegments (stringsSplit value ',') []

/-- `ValidateFluentdRegex(value)`: the returned error message, `none` for a
`nil` error. -/
def ValidateFluentdRegex (_value : String) : Option String :=
  none

/-! ## Configuration types (pkg/sdk/model/filter, pkg/sdk/api/v1beta1)

The fields are those the validators read or list as unvalidated. -/

/-- One alternative of a multi-format parser (a `patterns` element). -/
structure SingleParseSection where
  Type_ : String := ""
  Expression : String := ""
  TimeKey : String := ""
  NullValuePattern : String := ""
  NullEmptyString : Bool := false
  EstimateCurrentEvent : Bool := false
  KeepTimeKey : Bool := false
  Types : String := ""
  TimeFormat : String := ""
  TimeType : String := ""
  LocalTime : Bool := false
  UTC : Bool := false
  Timezone : String := ""
  Format : String := ""
deriving DecidableEq, Repr

/-- The top-level `parse` section. -/
structure ParseSection where
  Type_ : String := ""
  Expression : String := ""
  TimeKey : String := ""
  NullValuePattern : String := ""
  NullEmptyString : Bool := false
  EstimateCurrentEvent : Bool := false
  KeepTimeKey : Bool := false
  Types : String := ""
  TimeFormat : String := ""
  TimeType : String := ""
  LocalTime : Bool := false
  UTC : Bool := false
  Timezone : String := ""
  Format : String := ""
  FormatFirstline : String := ""
  Delimiter : String := ""
  DelimiterPattern : String := ""
  LabelDelimiter : String := ""
  Multiline : List String := []
  Patterns : List SingleParseSection := []
deriving DecidableEq, Repr

/-- The parser filter configuration. -/
structure ParserConfig where
  KeyName : String := ""
  ReserveTime : Bool := false
  ReserveData : Bool := false
  RemoveKeyNameField : Bool := false
  ReplaceInvalidSequence : Bool := false
  InjectKeyPrefix : String := ""
  HashValueField : String := ""
  EmitInvalidRecordToError : Bool := false
  Parse : ParseSection := {}
  Parsers : List ParseSection := []
deriving DecidableEq, Repr

/-- The stdout filter configuration. -/
structure StdOutFilterConfig where
  OutputFormat : String := ""
deriving DecidableEq, Repr

/-- A filter of a flow; only the two sub-configurations that are validated are
kept, each a pointer that may be `nil`. -/
structure Filter where
  StdOut : Option StdOutFilterConfig := none
  Parser : Option ParserConfig := none
deriving DecidableEq, Repr

/-- The specification of a flow. -/
structure FlowSpec where
  Filters : List Filter := []
deriving DecidableEq, Repr

/-! ## k8s.io/apimachinery: field paths and field errors -/

/-- A segment of a `field.Path`. -/
inductive PathElem where
  | name (n : String)
  | index (i : Nat)
deriving DecidableEq, Repr

/-- A `*field.Path`, root first; `nil` is the empty list. -/
abbrev Path := List PathElem

/-- The path `field.NewPath(name)`. -/
def NewPath (name : String) : Path := [PathElem.name name]

/-- The path `p.Child(name)`. -/
def Path.Child (p : Path) (name : String) : Path := p ++ [PathElem.name name]

/-- The path `p.Index(i)`. -/
def Path.Index (p : Path) (i : Nat) : Path := p ++ [PathElem.index i]

/-- The kinds of `field.Error` (`field.ErrorType`) that occur here, and
`Forbidden`. -/
inductive ErrorType where
  | Required
  | Invalid
  | NotSupported
  | Forbidden
deriving DecidableEq, Repr

/-- The offending value of a `field.Error` (an `interface{}` in Go). -/
inductive BadValue where
  | str (s : String)
  | bool (b : Bool)
  | strs (l : List String)
  | sections (l : List ParseSection)
deriving DecidableEq, Repr

/-- The detail message of a `field.Error`, in structured form. -/
inductive Detail where
  /-- A literal message. -/
  | text (msg : String)
  /-- The message of `field.NotSupported`, listing the supported values. -/
  | supportedValues (valid : List String)
  /-- The message `err.Error()` of a `ParseFluentdHash` failure. -/
  | hashError (err : HashError)
  /-- The message `field %q using unsupported type %q, valid types include %v`. -/
  | unsupportedFieldType (name typeName : String) (valid : List String)
deriving DecidableEq, Repr

/-- A `field.Error`. -/
structure FieldError where
  Type_ : ErrorType
  Field : Path
  BadValue : BadValue
  Detail : Detail
deriving DecidableEq, Repr

/-- A `field.ErrorList`. -/
abbrev ErrorList := List FieldError

/-- The error `field.Required(path, detail)`. -/
def fieldRequired (path : Path) (detail : String) : FieldError :=
  ⟨ErrorType.Required, path, BadValue.str "", Detail.text detail⟩

/-- The error `field.Invalid(path, value, detail)`. -/
def fieldInvalid (path : Path) (value : BadValue) (detail : Detail) : FieldError :=
  ⟨ErrorType.Invalid, path, value, detail⟩

/-- The error `field.NotSupported(path, value, validValues)`. -/
def fieldNotSupported (path : Path) (value : BadValue) (validValues : List String) :
    FieldError :=
  ⟨ErrorType.NotSupported, path, value, Detail.supportedValues validValues⟩

/-! ## pkg/sdk/model/filter/parser_validation.go -/

def validParserTypes : StringSet :=
  ⟨["apache2", "apache_error", "nginx", "syslog", "csv", "tsv", "ltsv", "json",
    "multiline", "none", "logfmt", "multi_format", "regexp"]⟩

def validSingleParserTypes : StringSet :=
  ⟨["apache2", "apache_error", "nginx", "syslog", "csv", "tsv", "json", "none",
    "logfmt", "regexp"]⟩

def validParserFieldTypes : StringSet :=
  ⟨["string", "integer", "float", "bool", "time", "array"]⟩

def validParserTimeTypes : StringSet :=
  ⟨["float", "unixtime", "string", ""]⟩

/-- The errors of one regex check: `field.Invalid(path, value, err.Error())`
when `ValidateFluentdRegex(value)` fails. -/
def validateRegexField (path : Path) (value : String) : ErrorList :=
  match ValidateFluentdRegex value with
  | some msg => [fieldInvalid path (BadValue.str value) (Detail.text msg)]
  | none => []

/-- The loop `for name, typ := range types` of the *Validate Types* block, over
the entries in the order they are visited; `typesField` is `section.Types`. -/
def validateFieldTypes (path : Path) (typesField : String) :
    List (String × String) → ErrorList
  | [] => []
  | (name, typ) :: rest =>
    let parts := stringsSplitN2 typ ':'
    let typeName := parts.getD 0 ""
    (if !validParserFieldTypes.Has typeName then
      [fieldInvalid (path.Child "types") (BadValue.str typesField)
        (Detail.unsupportedFieldType name typeName validParserFieldTypes.List)]
    else [])
    ++ validateFieldTypes path typesField rest

/-- The *Validate Types* block, shared verbatim by both section validators. -/
def validateTypes (json : JsonUnmarshal) (ord : RangeOrder) (path : Path)
    (typesField : String) : ErrorList :=
  let (types, err) := ParseFluentdHash json typesField
  (match err with
    | some e => [fieldInvalid (path.Child "types") (BadValue.str typesField) (Detail.hashError e)]
    | none => [])
  ++ validateFieldTypes path typesField (ord.order types)

/-- `validateSingleParseSection(path, section)`. -/
def validateSingleParseSection (json : JsonUnmarshal) (ord : RangeOrder) (path : Path)
    (section_ : SingleParseSection) : ErrorList :=
  -- Validate Type
  (if section_.Type_ ≠ "" then
    [fieldInvalid (path.Child "type") (BadValue.str section_.Format)
      (Detail.text "'type' cannot be specified in patterns, use 'format'")]
  else [])
  -- Validate Expression
  ++ (if section_.Expression = "" ∧ section_.Format = "regex" then
    [fieldRequired (path.Child "expression") "'expression' is required for regexp parsers"]
  else [])
  ++ (if section_.Expression ≠ "" ∧ section_.Format ≠ "regex" then
    [fieldRequired (path.Child "expression")
      "'expression' can only be specified for regexp parsers"]
  else [])
  ++ validateRegexField (path.Child "expression") section_.Expression
  -- Validate NullValuePattern
  ++ validateRegexField (path.Child "null_value_pattern") section_.NullValuePattern
  -- Validate Types
  ++ validateTypes json ord path section_.Types
  -- Validate TimeType
  ++ (if !validParserTimeTypes.Has section_.TimeType then
    [fieldNotSupported (path.Child "time_type") (BadValue.str section_.TimeType)
      validParserTimeTypes.List]
  else [])
  -- Validate LocalTime
  ++ (if section_.LocalTime ∧ section_.UTC then
    [fieldInvalid (path.Child "local_time") (BadValue.bool section_.LocalTime)
      (Detail.text "'local_time' and 'utc' cannot both be true")]
  else [])
  -- Validate UTC
  ++ (if section_.LocalTime ∧ section_.UTC then
    [fieldInvalid (path.Child "utc") (BadValue.bool section_.UTC)
      (Detail.text "'local_time' and 'utc' cannot both be true")]
  else [])
  -- Validate Format
  ++ (if !validSingleParserTypes.Has section_.Format then
    [fieldNotSupported (path.Child "format") (BadValue.str section_.Format)
      validSingleParserTypes.List]
  else [])

/-- The loop `for i, line := range section.Multiline` of the *Validate
Multiline* block, from index `i` on. -/
def validateMultilineLines (path : Path) : Nat → List String → ErrorList
  | _, [] => []
  | i, line :: rest =>
    validateRegexField ((path.Child "multiline").Index i) line
    ++ validateMultilineLines path (i + 1) rest

/-- The loop `for i, pattern := range section.Patterns` of the *Validate
Patterns* block, from index `i` on. -/
def validatePatterns (json : JsonUnmarshal) (ords : Nat → RangeOrder) (path : Path) :
    Nat → List SingleParseSection → ErrorList
  | _, [] => []
  | i, pattern :: rest =>
    validateSingleParseSection json (ords i) ((path.Child "patterns").Index i) pattern
    ++ validatePatterns json ords path (i + 1) rest

/-- `validateParseSection(path, section)`. -/
def validateParseSection (json : JsonUnmarshal) (ords : SectionOrders) (path : Path)
    (section_ : ParseSection) : ErrorList :=
  -- Validate Type
  (if !validParserTypes.Has section_.Type_ then
    [fieldNotSupported (path.Child "type") (BadValue.str section_.Type_) validParserTypes.List]
  else [])
  -- Validate Expression
  ++ (if section_.Expression = "" ∧ section_.Type_ = "regex" then
    [fieldRequired (path.Child "expression") "'expression' is required for regexp parsers"]
  else [])
  ++ (if section_.Expression ≠ "" ∧ section_.Type_ ≠ "regex" then
    [fieldRequired (path.Child "expression")
      "'expression' can only be specified for regexp parsers"]
  else [])
  ++ validateRegexField (path.Child "expression") section_.Expression
  -- Validate NullValuePattern
  ++ validateRegexField (path.Child "null_value_pattern") section_.NullValuePattern
  -- Validate Types
  ++ validateTypes json ords.own path section_.Types
  -- Validate TimeType
  ++ (if !validParserTimeTypes.Has section_.TimeType then
    [fieldNotSupported (path.Child "time_type") (BadValue.str section_.TimeType)
      validParserTimeTypes.List]
  else [])
  -- Validate LocalTime
  ++ (if section_.LocalTime ∧ section_.UTC then
    [fieldInvalid (path.Child "local_time") (BadValue.bool section_.LocalTime)
      (Detail.text "'local_time' and 'utc' cannot both be true")]
  else [])
  -- Validate UTC
  ++ (if section_.LocalTime ∧ section_.UTC then
    [fieldInvalid (path.Child "utc") (BadValue.bool section_.UTC)
      (Detail.text "'local_time' and 'utc' cannot both be true")]
  else [])
  -- Validate Format
  ++ (if section_.Format ≠ "" then
    [fieldInvalid (path.Child "format") (BadValue.str section_.Format)
      (Detail.text "format can only be specified in patterns")]
  else [])
  -- Validate FormatFirstline
  ++ (if section_.FormatFirstline ≠ "" ∧ section_.Type_ ≠ "multiline" then
    [fieldInvalid (path.Child "format_firstline") (BadValue.str section_.FormatFirstline)
      (Detail.text "'format_firstline' can only be specified for multiline parsers")]
  else [])
  ++ validateRegexField (path.Child "format_firstline") section_.FormatFirstline
  -- Validate Delimiter
  ++ (if section_.Delimiter ≠ "" ∧ section_.Type_ ≠ "ltsv" then
    [fieldInvalid (path.Child "delimiter") (BadValue.str section_.Delimiter)
      (Detail.text "'delimiter' can only be specified for ltsv parsers")]
  else [])
  ++ (if section_.Delimiter ≠ "" ∧ section_.DelimiterPattern ≠ "" then
    [fieldInvalid (path.Child "delimiter") (BadValue.str section_.Delimiter)
      (Detail.text "'delimiter' can not be specified when a 'delimiter_pattern' is provided")]
  else [])
  -- Validate DelimiterPattern
  ++ (if section_.DelimiterPattern ≠ "" ∧ section_.Type_ ≠ "ltsv" then
    [fieldInvalid (path.Child "delimiter_pattern") (BadValue.str section_.DelimiterPattern)
      (Detail.text "'delimiter_pattern' can only be specified for ltsv parsers")]
  else [])
  ++ validateRegexField (path.Child "delimiter_pattern") section_.DelimiterPattern
  -- Validate LabelDelimiter
  ++ (if section_.LabelDelimiter ≠ "" ∧ section_.Type_ ≠ "ltsv" then
    [fieldInvalid (path.Child "label_delimiter") (BadValue.str section_.LabelDelimiter)
      (Detail.text "'label_delimiter' can only be specified for ltsv parsers")]
  else [])
  -- Validate Multiline
  ++ (if section_.Multiline.length > 0 ∧ section_.Type_ ≠ "multiline" then
    [fieldInvalid (path.Child "multiline") (BadValue.strs section_.Multiline)
      (Detail.text "'multiline' can only be specified for multiline parsers")]
  else [])
  ++ validateMultilineLines path 0 section_.Multiline
  -- Validate Patterns
  ++ validatePatterns json ords.patterns path 0 section_.Patterns

/-- `validateParserConfig(path, parser)`. -/
def validateParserConfig (json : JsonUnmarshal) (ords : SectionOrders) (path : Path)
    (parser : ParserConfig) : ErrorList :=
  -- Validate Parse
  validateParseSection json ords (path.Child "parse") parser.Parse
  -- Validate Parsers
  ++ (if parser.Parsers.length > 0 then
    [fieldInvalid (path.Child "parses") (BadValue.sections parser.Parsers)
      (Detail.text "'parsers' field is deprecated, use 'parse'")]
  else [])

/-- The method `(*ParserConfig).ValidateFields(path)`; `none` is the `nil`
receiver. -/
def ParserConfig.ValidateFields (json : JsonUnmarshal) (ords : SectionOrders)
    (c : Option ParserConfig) (path : Path) : ErrorList :=
  match c with
  | none => []
  | some parser => validateParserConfig json ords path parser

/-! ## pkg/sdk/model/filter/stdout_validation.go -/

/-- The method `(*StdOutFilterConfig).ValidateFields(path)`. -/
def StdOutFilterConfig.ValidateFields (_c : Option StdOutFilterConfig) (_path : Path) :
    ErrorList :=
  []

/-! ## pkg/sdk/api/v1beta1/flow_webhook.go -/

/-- `validateFilter(path, filter)`. -/
def validateFilter (json : JsonUnmarshal) (ords : SectionOrders) (path : Path)
    (filter : Filter) : ErrorList :=
  StdOutFilterConfig.ValidateFields filter.StdOut (path.Child "stdout")
  ++ ParserConfig.ValidateFields json ords filter.Parser (path.Child "parser")

/-- The loop `for i, filter := range filters` of `validateFilters`, from index
`i` on; `ords i` holds the map visiting orders used for filter `i`. -/
def validateFiltersFrom (json : JsonUnmarshal) (ords : Nat → SectionOrders) (path : Path) :
    Nat → List Filter → ErrorList
  | _, [] => []
  | i, filter :: rest =>
    validateFilter json (ords i) (path.Index i) filter
    ++ validateFiltersFrom json ords path (i + 1) rest

/-- `validateFilters(path, filters)`. -/
def validateFilters (json : JsonUnmarshal) (ords : Nat → SectionOrders) (path : Path)
    (filters : List Filter) : ErrorList :=
  validateFiltersFrom json ords path 0 filters

/-- `validateFlowSpec(path, spec)`. -/
def validateFlowSpec (json : JsonUnmarshal) (ords : Nat → SectionOrders) (path : Path)
    (spec : FlowSpec) : ErrorList :=
  validateFilters json ords (path.Child "filters") spec.Filters

/-- The method `(*Flow).ValidateFields()` on a flow with specification `spec`. -/
def Flow.ValidateFields (json : JsonUnmarshal) (ords : Nat → SectionOrders)
    (spec : FlowSpec) : ErrorList :=
  validateFlowSpec json ords (NewPath "spec") spec

/-! ## Vocabulary of the specification -/

/-- The text of a segment or token before its first colon (the whole text when
it has no colon). -/
def textBeforeFirstColon (s : String) : String :=
  String.mk (s.data.takeWhile fun c => decide (c ≠ ':'))

/-- The whole text of a segment or token after its first colon (empty when it
has no colon). -/
def textAfterFirstColon (s : String) : String :=
  String.mk ((s.data.dropWhile fun c => decide (c ≠ ':')).drop 1)

/-- The segment or token contains no colon. -/
def hasNoColon (s : String) : Bool :=
  decide (':' ∉ s.data)

/-- The type name of a type token, its text before the first colon, is not
one of string, integer, float, bool, time, array. -/
def unsupportedToken (token : String) : Bool :=
  !(["string", "integer", "float", "bool", "time", "array"].contains
    (textBeforeFirstColon token))

/-- The `types` string decodes to a map with at most one entry whose type name
is unsupported (a string that fails to decode gives the empty map). -/
def atMostOneUnsupported (json : JsonUnmarshal) (typesField : String) : Bool :=
  decide ((ParseFluentdHash json typesField).1.countP (fun kv => unsupportedToken kv.2) ≤ 1)

/-- No `types` string of the section or of its patterns decodes to a map with
two or more entries whose type name is unsupported. -/
def ParseSection.typesOrderFree (json : JsonUnmarshal) (parse : ParseSection) : Bool :=
  atMostOneUnsupported json parse.Types
    && parse.Patterns.all fun pattern => atMostOneUnsupported json pattern.Types

/-- No `types` string of a parser of the flow decodes to a map with two or
more entries whose type name is unsupported. -/
def FlowSpec.typesOrderFree (json : JsonUnmarshal) (spec : FlowSpec) : Bool :=
  spec.Filters.all fun filter =>
    match filter.Parser with
    | none => true
    | some parser => parser.Parse.typesOrderFree json

/-- A character that a JSON string literal contains as it is: not the quote,
not the backslash and not a control character. -/
def isPlainChar (c : Char) : Bool :=
  !(c = '"') && !(c = '\\') && decide (0x20 ≤ c.toNat)

/-- The JSON text of a member value: a string of plain characters between
quotes, or `null` for no string. -/
def encodeValue : Option String → List Char
  | some v => '"' :: v.data ++ ['"']
  | none => ['n', 'u', 'l', 'l']

/-- The JSON text of a member: the key between quotes, a colon, the value. -/
def encodeMember (m : String × Option String) : List Char :=
  '"' :: m.1.data ++ '"' :: ':' :: encodeValue m.2

/-- The JSON texts of the members, separated by commas. -/
def encodeMembers : List (String × Option String) → List Char
  | [] => []
  | [m] => encodeMember m
  | m :: rest => encodeMember m ++ ',' :: encodeMembers rest

/-- The JSON text of the object with the given members, in compact form. -/
def encodeObject (members : List (String × Option String)) : String :=
  String.mk ('\x7b' :: encodeMembers members ++ ['\x7d'])

/-- The JSON value of a member given as a string or as no string. -/
def memberValue : Option String → JsonValue
  | some v => JsonValue.string v
  | none => JsonValue.null

/-- The error with the entry that a type-token message names blanked out (its
field name and type name); every other error is left as it is. Two errors
with the same image differ at most in which entry of a `types` map they name. -/
def FieldError.eraseEntry (e : FieldError) : FieldError :=
  match e.Detail with
  | Detail.unsupportedFieldType _ _ valid =>
    { e with Detail := Detail.unsupportedFieldType "" "" valid }
  | _ => e

/-- A decoder standing in for `json.Unmarshal` that decodes the one document
`\x7b"a":"integer"\x7d` and rejects every other input. -/
def jsonSample : JsonUnmarshal :=
  fun doc =>
    if doc = "\x7b\"a\":\"integer\"\x7d" then Except.ok [("a", "integer")]
    else Except.error "invalid character"

/-- A decoder standing in for `json.Unmarshal` that rejects every document;
used to evaluate the validators on inputs in the string form. -/
def jsonRejectAll : JsonUnmarshal :=
  fun _ => Except.error "unexpected end of JSON input"

/-! ## Observations on error lists -/

/-- Number of errors of the list reported at the field path `p`. -/
def errorsAt (errs : ErrorList) (p : Path) : Nat :=
  errs.countP fun e => decide (e.Field = p)

/-- Number of errors of the list of kind `t` reported at the field path `p`. -/
def errorsOfTypeAt (errs : ErrorList) (t : ErrorType) (p : Path) : Nat :=
  errs.countP fun e => decide (e.Type_ = t ∧ e.Field = p)

/-! ## Lemmas on the string functions -/

theorem cutChars_eq_none_iff (sep : Char) (l : List Char) :
    cutChars sep l = none ↔ sep ∉ l := by
  induction l with
  | nil => simp [cutChars]
  | cons c cs ih =>
    by_cases h : c = sep
    · simp [cutChars, h]
    · have h' : ¬ sep = c := fun e => h e.symm
      simp [cutChars, h, h', ih]

theorem cutChars_of_mem (l : List Char) (h : ':' ∈ l) :
    cutChars ':' l = some (l.takeWhile (fun c => decide (c ≠ ':')),
      (l.dropWhile fun c => decide (c ≠ ':')).drop 1) := by
  induction l with
  | nil => simp at h
  | cons c cs ih =>
    by_cases hc : c = ':'
    · simp [cutChars, hc]
    · have hmem : ':' ∈ cs := by
        rcases List.mem_cons.mp h with h1 | h1
        · exact absurd h1.symm hc
        · exact h1
      simp [cutChars, hc, ih hmem]

theorem takeWhile_of_not_mem (l : List Char) (h : ':' ∉ l) :
    l.takeWhile (fun c => decide (c ≠ ':')) = l := by
  refine List.takeWhile_eq_self_iff.mpr fun x hx => ?_
  have hx' : x ≠ ':' := fun e => h (e ▸ hx)
  simp [hx']

theorem stringsSplitN2_of_no_colon (s : String) (h : ':' ∉ s.data) :
    stringsSplitN2 s ':' = [s] := by
  simp [stringsSplitN2, (cutChars_eq_none_iff ':' s.data).mpr h]

theorem stringsSplitN2_of_colon (s : String) (h : ':' ∈ s.data) :
    stringsSplitN2 s ':' = [textBeforeFirstColon s, textAfterFirstColon s] := by
  simp [stringsSplitN2, cutChars_of_mem s.data h, textBeforeFirstColon, textAfterFirstColon]

theorem stringsSplitN2_head (s : String) :
    (stringsSplitN2 s ':').getD 0 "" = textBeforeFirstColon s := by
  by_cases h : ':' ∈ s.data
  · simp [stringsSplitN2_of_colon s h]
  · rw [stringsSplitN2_of_no_colon s h, textBeforeFirstColon, takeWhile_of_not_mem s.data h]
    rfl

/-! ## Lemmas on `ParseFluentdHash` -/

theorem parseSegments_error (segs : List String) (results : GoMap) :
    (parseSegments segs results).2
      = (segs.find? hasNoColon).map HashError.missingValue := by
  induction segs generalizing results with
  | nil => simp [parseSegments]
  | cons seg rest ih =>
    by_cases h : ':' ∈ seg.data
    · simp [parseSegments, stringsSplitN2_of_colon seg h, ih, hasNoColon, h]
    · simp [parseSegments, stringsSplitN2_of_no_colon seg h, hasNoColon, h]

theorem ParseFluentdHash_empty (json : JsonUnmarshal) :
    ParseFluentdHash json "" = ([], none) := by
  simp [ParseFluentdHash]

theorem ParseFluentdHash_string_form (json : JsonUnmarshal) (value : String)
    (hne : value ≠ "") (h : stringsHasPrefix value "\x7b" = false) :
    ParseFluentdHash json value = parseSegments (stringsSplit value ',') [] := by
  simp [ParseFluentdHash, hne, h]

theorem GoMap.get?_set (m : GoMap) (k v k' : String) :
    (m.set k v).get? k' = if k = k' then some v else m.get? k' := by
  induction m with
  | nil => simp [GoMap.set, GoMap.get?]
  | cons kv rest ih =>
    obtain ⟨k0, v0⟩ := kv
    by_cases h0 : k0 = k
    · subst h0
      by_cases h1 : k0 = k'
      · simp [GoMap.set, GoMap.get?, h1]
      · simp [GoMap.set, GoMap.get?, h1]
    · by_cases h1 : k0 = k'
      · subst h1
        have h2 : ¬ k = k0 := fun e => h0 e.symm
        simp [GoMap.set, GoMap.get?, h0, h2]
      · simp [GoMap.set, GoMap.get?, h0, h1, ih]

theorem parseSegments_get? (segs : List String) (results : GoMap)
    (hall : ∀ seg ∈ segs, ':' ∈ seg.data) (name : String) :
    (parseSegments segs results).1.get? name =
      ((segs.reverse.find? fun seg => decide (textBeforeFirstColon seg = name)).map
        textAfterFirstColon).or (results.get? name) := by
  induction segs generalizing results with
  | nil => simp [parseSegments]
  | cons seg rest ih =>
    have hseg : ':' ∈ seg.data := hall seg (List.mem_cons_self _ _)
    have hrest : ∀ s ∈ rest, ':' ∈ s.data := fun s hs => hall s (List.mem_cons_of_mem _ hs)
    simp only [parseSegments, stringsSplitN2_of_colon seg hseg, List.length_cons,
      List.length_nil, List.getD_cons_zero, List.getD_cons_succ]
    rw [if_neg (by decide), ih _ hrest, GoMap.get?_set, List.reverse_cons, List.find?_append]
    rcases List.find? (fun seg => decide (textBeforeFirstColon seg = name)) rest.reverse
      with _ | found
    · by_cases hn : textBeforeFirstColon seg = name
      · simp [hn]
      · simp [hn]
    · simp

theorem ParseFluentdHash_map_of_error (json : JsonUnmarshal) (value : String)
    (e : HashError) (h : (ParseFluentdHash json value).2 = some e) :
    (ParseFluentdHash json value).1 = [] := by
  have hseg : ∀ (segs : List String) (results : GoMap) (e : HashError),
      (parseSegments segs results).2 = some e → (parseSegments segs results).1 = [] := by
    intro segs
    induction segs with
    | nil => intro results e he; simp [parseSegments] at he
    | cons seg rest ih =>
      intro results e he
      by_cases hc : ':' ∈ seg.data
      · simp only [parseSegments, stringsSplitN2_of_colon seg hc, List.length_cons,
          List.length_nil] at he ⊢
        rw [if_neg (by decide)] at he ⊢
        exact ih _ e he
      · simp [parseSegments, stringsSplitN2_of_no_colon seg hc]
  by_cases h1 : value = ""
  · simp [ParseFluentdHash, h1]
  · by_cases h2 : stringsHasPrefix value "\x7b" = true
    · cases hj : json value with
      | error msg => simp [ParseFluentdHash, h1, h2, hj]
      | ok members => simp [ParseFluentdHash, h1, h2, hj] at h
    · simp only [ParseFluentdHash, if_neg h1, if_neg h2] at h ⊢
      exact hseg _ _ e h

/-! ## Lemmas on field paths and error lists -/

theorem Path.Child_inj (p : Path) (a b : String) : p.Child a = p.Child b ↔ a = b := by
  simp [Path.Child]

theorem Path.length_Child (p : Path) (a : String) : (p.Child a).length = p.length + 1 := by
  simp [Path.Child]

theorem Path.length_Index (p : Path) (i : Nat) : (p.Index i).length = p.length + 1 := by
  simp [Path.Index]

theorem Path.Index_ne_Child (p q : Path) (i : Nat) (a : String) : p.Index i ≠ q.Child a := by
  intro h
  have h2 := congrArg List.getLast? h
  simp [Path.Index, Path.Child] at h2

theorem fieldRequired_Field (p : Path) (d : String) : (fieldRequired p d).Field = p := rfl

theorem fieldInvalid_Field (p : Path) (v : BadValue) (d : Detail) :
    (fieldInvalid p v d).Field = p := rfl

theorem fieldNotSupported_Field (p : Path) (v : BadValue) (l : List String) :
    (fieldNotSupported p v l).Field = p := rfl

theorem fieldRequired_Type (p : Path) (d : String) :
    (fieldRequired p d).Type_ = ErrorType.Required := rfl

theorem fieldInvalid_Type (p : Path) (v : BadValue) (d : Detail) :
    (fieldInvalid p v d).Type_ = ErrorType.Invalid := rfl

theorem fieldNotSupported_Type (p : Path) (v : BadValue) (l : List String) :
    (fieldNotSupported p v l).Type_ = ErrorType.NotSupported := rfl

theorem errorsAt_nil (p : Path) : errorsAt [] p = 0 := rfl

theorem errorsAt_append (a b : ErrorList) (p : Path) :
    errorsAt (a ++ b) p = errorsAt a p + errorsAt b p := by
  simp [errorsAt, List.countP_append]

theorem errorsAt_ite (c : Prop) [Decidable c] (e : FieldError) (p : Path) :
    errorsAt (if c then [e] else []) p = if c ∧ e.Field = p then 1 else 0 := by
  by_cases hc : c <;> by_cases hp : e.Field = p <;> simp [errorsAt, hc, hp]

theorem errorsAt_ite_not (c : Prop) [Decidable c] (e : FieldError) (p : Path) :
    errorsAt (if c then [] else [e]) p = if ¬ c ∧ e.Field = p then 1 else 0 := by
  by_cases hc : c <;> by_cases hp : e.Field = p <;> simp [errorsAt, hc, hp]

theorem errorsAt_eq_zero (errs : ErrorList) (p : Path) (h : ∀ e ∈ errs, e.Field ≠ p) :
    errorsAt errs p = 0 := by
  simp only [errorsAt, List.countP_eq_zero]
  intro e he
  simpa using h e he

theorem errorsOfTypeAt_nil (t : ErrorType) (p : Path) : errorsOfTypeAt [] t p = 0 := rfl

theorem errorsOfTypeAt_append (a b : ErrorList) (t : ErrorType) (p : Path) :
    errorsOfTypeAt (a ++ b) t p = errorsOfTypeAt a t p + errorsOfTypeAt b t p := by
  simp [errorsOfTypeAt, List.countP_append]

theorem errorsOfTypeAt_ite (c : Prop) [Decidable c] (e : FieldError) (t : ErrorType)
    (p : Path) :
    errorsOfTypeAt (if c then [e] else []) t p
      = if c ∧ e.Type_ = t ∧ e.Field = p then 1 else 0 := by
  by_cases hc : c <;> by_cases hp : e.Field = p <;> by_cases ht : e.Type_ = t <;>
    simp [errorsOfTypeAt, hc, hp, ht]

theorem errorsOfTypeAt_ite_not (c : Prop) [Decidable c] (e : FieldError) (t : ErrorType)
    (p : Path) :
    errorsOfTypeAt (if c then [] else [e]) t p
      = if ¬ c ∧ e.Type_ = t ∧ e.Field = p then 1 else 0 := by
  by_cases hc : c <;> by_cases hp : e.Field = p <;> by_cases ht : e.Type_ = t <;>
    simp [errorsOfTypeAt, hc, hp, ht]

theorem errorsOfTypeAt_eq_zero (errs : ErrorList) (t : ErrorType) (p : Path)
    (h : ∀ e ∈ errs, e.Field ≠ p) : errorsOfTypeAt errs t p = 0 := by
  simp only [errorsOfTypeAt, List.countP_eq_zero]
  intro e he
  simpa using fun _ => h e he

theorem Path.Child_ne_Index (p q : Path) (i : Nat) (a : String) : q.Child a ≠ p.Index i :=
  fun h => Path.Index_ne_Child p q i a h.symm

theorem filter_ite (c : Prop) [Decidable c] (e : FieldError) (q : FieldError → Bool) :
    (if c then [e] else []).filter q = if c ∧ q e = true then [e] else [] := by
  by_cases hc : c <;> by_cases hq : q e = true <;> simp [hc, hq]

theorem filter_ite_not (c : Prop) [Decidable c] (e : FieldError) (q : FieldError → Bool) :
    (if c then [] else [e]).filter q = if ¬ c ∧ q e = true then [e] else [] := by
  by_cases hc : c <;> by_cases hq : q e = true <;> simp [hc, hq]

theorem StringSet.Has_iff (s : StringSet) (x : String) : s.Has x = true ↔ x ∈ s.elems := by
  simp [StringSet.Has]

/-! ## Lemmas on the section validators -/

theorem validateRegexField_eq (path : Path) (value : String) :
    validateRegexField path value = [] := rfl

theorem validateMultilineLines_eq (path : Path) (i : Nat) (lines : List String) :
    validateMultilineLines path i lines = [] := by
  induction lines generalizing i with
  | nil => rfl
  | cons line rest ih => simp [validateMultilineLines, validateRegexField_eq, ih]

theorem validateFieldTypes_Field (path : Path) (typesField : String)
    (entries : List (String × String)) :
    ∀ e ∈ validateFieldTypes path typesField entries, e.Field = path.Child "types" := by
  induction entries with
  | nil => simp [validateFieldTypes]
  | cons kv rest ih =>
    obtain ⟨name, typ⟩ := kv
    intro e he
    simp only [validateFieldTypes, List.mem_append] at he
    rcases he with he | he
    · split_ifs at he
      · simp only [List.mem_singleton] at he
        rw [he]; rfl
      · simp at he
    · exact ih e he

theorem validateTypes_Field (json : JsonUnmarshal) (ord : RangeOrder) (path : Path)
    (typesField : String) :
    ∀ e ∈ validateTypes json ord path typesField, e.Field = path.Child "types" := by
  intro e he
  simp only [validateTypes, List.mem_append] at he
  rcases he with he | he
  · split at he
    · simp only [List.mem_singleton] at he
      rw [he]; rfl
    · simp at he
  · exact validateFieldTypes_Field _ _ _ e he

theorem errorsAt_validateTypes_other (json : JsonUnmarshal) (ord : RangeOrder) (path : Path)
    (typesField : String) (a : String) (ha : a ≠ "types") :
    errorsAt (validateTypes json ord path typesField) (path.Child a) = 0 := by
  refine errorsAt_eq_zero _ _ fun e he => ?_
  rw [validateTypes_Field json ord path typesField e he, Ne, Path.Child_inj]
  exact fun h => ha h.symm

theorem errorsOfTypeAt_validateTypes_other (json : JsonUnmarshal) (ord : RangeOrder)
    (path : Path) (typesField : String) (t : ErrorType) (a : String) (ha : a ≠ "types") :
    errorsOfTypeAt (validateTypes json ord path typesField) t (path.Child a) = 0 := by
  refine errorsOfTypeAt_eq_zero _ _ _ fun e he => ?_
  rw [validateTypes_Field json ord path typesField e he, Ne, Path.Child_inj]
  exact fun h => ha h.symm

theorem validateTypes_of_ok (json : JsonUnmarshal) (ord : RangeOrder) (path : Path)
    (typesField : String) (h : (ParseFluentdHash json typesField).2 = none) :
    validateTypes json ord path typesField
      = validateFieldTypes path typesField (ord.order (ParseFluentdHash json typesField).1) := by
  unfold validateTypes
  rcases hpf : ParseFluentdHash json typesField with ⟨m, err⟩
  rw [hpf] at h
  simp only at h
  subst h
  simp

theorem validateTypes_of_error (json : JsonUnmarshal) (ord : RangeOrder) (path : Path)
    (typesField : String) (e : HashError) (h : (ParseFluentdHash json typesField).2 = some e) :
    validateTypes json ord path typesField
      = [fieldInvalid (path.Child "types") (BadValue.str typesField) (Detail.hashError e)] := by
  have hm := ParseFluentdHash_map_of_error json typesField e h
  unfold validateTypes
  rcases hpf : ParseFluentdHash json typesField with ⟨m, err⟩
  rw [hpf] at h hm
  simp only at h hm
  subst h hm
  have hnil : ord.order [] = [] := List.Perm.eq_nil (ord.perm [])
  simp [hnil, validateFieldTypes]

theorem validateTypes_empty (json : JsonUnmarshal) (ord : RangeOrder) (path : Path) :
    validateTypes json ord path "" = [] := by
  have hnil : ord.order [] = [] := List.Perm.eq_nil (ord.perm [])
  simp [validateTypes, ParseFluentdHash_empty, hnil, validateFieldTypes]

theorem errorsAt_validateFieldTypes (path : Path) (typesField : String)
    (entries : List (String × String)) :
    errorsAt (validateFieldTypes path typesField entries) (path.Child "types")
      = entries.countP fun kv => unsupportedToken kv.2 := by
  induction entries with
  | nil => simp [validateFieldTypes, errorsAt_nil]
  | cons kv rest ih =>
    obtain ⟨name, typ⟩ := kv
    simp only [validateFieldTypes, errorsAt_append, ih, stringsSplitN2_head, List.countP_cons]
    rw [errorsAt_ite, Nat.add_comm]
    simp [unsupportedToken, validParserFieldTypes, StringSet.Has, fieldInvalid_Field]

theorem textBeforeFirstColon_time (opt : String) :
    textBeforeFirstColon ("time:" ++ opt) = "time" := by
  simp [textBeforeFirstColon, String.data_append, List.takeWhile]

theorem validateSingleParseSection_Field_length (json : JsonUnmarshal) (ord : RangeOrder)
    (path : Path) (s : SingleParseSection) :
    ∀ e ∈ validateSingleParseSection json ord path s, e.Field.length = path.length + 1 := by
  intro e he
  simp only [validateSingleParseSection, validateRegexField_eq, List.mem_append,
    List.append_nil] at he
  have hT := validateTypes_Field json ord path s.Types e
  rcases he with ((((((he | he) | he) | he) | he) | he) | he) | he
  all_goals first
    | (rw [hT he]; exact Path.length_Child _ _)
    | (split_ifs at he
       · simp only [List.mem_singleton] at he
         rw [he]; exact Path.length_Child _ _
       · simp at he)

theorem validatePatterns_Field_length (json : JsonUnmarshal) (ords : Nat → RangeOrder)
    (path : Path) (i : Nat) (patterns : List SingleParseSection) :
    ∀ e ∈ validatePatterns json ords path i patterns, e.Field.length = path.length + 3 := by
  induction patterns generalizing i with
  | nil => simp [validatePatterns]
  | cons pattern rest ih =>
    intro e he
    simp only [validatePatterns, List.mem_append] at he
    rcases he with he | he
    · rw [validateSingleParseSection_Field_length _ _ _ _ e he, Path.length_Index,
        Path.length_Child]
    · exact ih _ e he

theorem validatePatterns_Field_ne (json : JsonUnmarshal) (ords : Nat → RangeOrder)
    (path : Path) (i : Nat) (patterns : List SingleParseSection) (q : Path)
    (hq : q.length ≠ path.length + 3) :
    ∀ e ∈ validatePatterns json ords path i patterns, e.Field ≠ q := by
  intro e he h
  exact hq (h ▸ validatePatterns_Field_length json ords path i patterns e he)

theorem errorsAt_validatePatterns (json : JsonUnmarshal) (ords : Nat → RangeOrder)
    (path : Path) (i : Nat) (patterns : List SingleParseSection) (a : String) :
    errorsAt (validatePatterns json ords path i patterns) (path.Child a) = 0 :=
  errorsAt_eq_zero _ _ (validatePatterns_Field_ne json ords path i patterns _
    (by rw [Path.length_Child]; omega))

theorem errorsAt_validatePatterns_Index (json : JsonUnmarshal) (ords : Nat → RangeOrder)
    (path : Path) (i : Nat) (patterns : List SingleParseSection) (a : String) (j : Nat) :
    errorsAt (validatePatterns json ords path i patterns) ((path.Child a).Index j) = 0 :=
  errorsAt_eq_zero _ _ (validatePatterns_Field_ne json ords path i patterns _
    (by rw [Path.length_Index, Path.length_Child]; omega))

theorem errorsAt_validateTypes_Index (json : JsonUnmarshal) (ord : RangeOrder) (path : Path)
    (typesField : String) (q : Path) (j : Nat) :
    errorsAt (validateTypes json ord path typesField) (q.Index j) = 0 := by
  refine errorsAt_eq_zero _ _ fun e he => ?_
  rw [validateTypes_Field json ord path typesField e he]
  exact Path.Child_ne_Index _ _ _ _

theorem errorsOfTypeAt_validatePatterns (json : JsonUnmarshal) (ords : Nat → RangeOrder)
    (path : Path) (i : Nat) (patterns : List SingleParseSection) (t : ErrorType)
    (a : String) :
    errorsOfTypeAt (validatePatterns json ords path i patterns) t (path.Child a) = 0 :=
  errorsOfTypeAt_eq_zero _ _ _ (validatePatterns_Field_ne json ords path i patterns _
    (by rw [Path.length_Child]; omega))

/-! ## Claims on `ParseFluentdHash` -/

/-- C1: for an input that does not begin with an opening brace,
`ParseFluentdHash` returns an error if and only if the input is non-empty and
one of its comma-separated segments contains no colon; a returned error names
the first segment without a colon; the empty input gives the empty map and no
error. -/
theorem ParseFluentdHash_fails_iff_segment_without_colon (json : JsonUnmarshal)
    (value : String) (h : stringsHasPrefix value "\x7b" = false) :
    ((ParseFluentdHash json value).2 ≠ none ↔
      value ≠ "" ∧ ∃ seg ∈ stringsSplit value ',', ':' ∉ seg.data) ∧
    (∀ e, (ParseFluentdHash json value).2 = some e →
      ∃ seg, (stringsSplit value ',').find? hasNoColon = some seg ∧
        ':' ∉ seg.data ∧ e = HashError.missingValue seg) ∧
    ParseFluentdHash json "" = ([], none) := by
  refine ⟨?_, ?_, ParseFluentdHash_empty json⟩
  · by_cases hne : value = ""
    · subst hne
      simp [ParseFluentdHash_empty]
    · rw [ParseFluentdHash_string_form json value hne h, parseSegments_error]
      simp [hne, hasNoColon]
  · intro e he
    by_cases hne : value = ""
    · subst hne
      simp [ParseFluentdHash_empty] at he
    · rw [ParseFluentdHash_string_form json value hne h, parseSegments_error] at he
      rcases hf : (stringsSplit value ',').find? hasNoColon with _ | seg
      · simp [hf] at he
      · refine ⟨seg, rfl, ?_, ?_⟩
        · have := List.find?_some hf
          simpa [hasNoColon] using this
        · simp [hf] at he
          exact he.symm

/-- Witness of C1 at the input `a`, which fails naming the segment `a`. -/
theorem ParseFluentdHash_fails_iff_segment_without_colon_witness :
    stringsHasPrefix "a" "\x7b" = false ∧
    (ParseFluentdHash jsonRejectAll "a").2 = some (HashError.missingValue "a") ∧
    ((ParseFluentdHash jsonRejectAll "a").2 ≠ none ↔
      "a" ≠ "" ∧ ∃ seg ∈ stringsSplit "a" ',', ':' ∉ seg.data) :=
  ⟨by decide, by decide,
    (ParseFluentdHash_fails_iff_segment_without_colon jsonRejectAll "a" (by decide)).1⟩

/-- C3: when the `types` string of a section decodes successfully to a map M,
the number of errors at `types` is the number of entries of M whose token has
a text before its first colon outside string, integer, float, bool, time,
array (every offending entry is counted, so validation does not stop at the
first), for both section validators and every order of visiting M; an entry
whose token is `time:` followed by any option adds no error. -/
theorem types_error_count (json : JsonUnmarshal) (ord : RangeOrder) (ords : SectionOrders)
    (path : Path) (single : SingleParseSection) (parse : ParseSection)
    (hs : (ParseFluentdHash json single.Types).2 = none)
    (hp : (ParseFluentdHash json parse.Types).2 = none) :
    errorsAt (validateSingleParseSection json ord path single) (path.Child "types")
      = (ParseFluentdHash json single.Types).1.countP (fun kv => unsupportedToken kv.2) ∧
    errorsAt (validateParseSection json ords path parse) (path.Child "types")
      = (ParseFluentdHash json parse.Types).1.countP (fun kv => unsupportedToken kv.2) ∧
    (∀ opt : String, unsupportedToken ("time:" ++ opt) = false) ∧
    (∀ (typesField name opt : String) (rest : List (String × String)),
      validateFieldTypes path typesField ((name, "time:" ++ opt) :: rest)
        = validateFieldTypes path typesField rest) := by
  refine ⟨?_, ?_, ?_, ?_⟩
  · have hc := (ord.perm (ParseFluentdHash json single.Types).1).countP_eq
      (fun kv => unsupportedToken kv.2)
    simp [validateSingleParseSection, errorsAt_append, errorsAt_ite, errorsAt_ite_not,
      errorsAt_nil, validateRegexField_eq, Path.Child_inj, fieldRequired_Field,
      fieldInvalid_Field, fieldNotSupported_Field, validateTypes_of_ok json ord path _ hs,
      errorsAt_validateFieldTypes, hc]
  · have hc := (ords.own.perm (ParseFluentdHash json parse.Types).1).countP_eq
      (fun kv => unsupportedToken kv.2)
    simp [validateParseSection, errorsAt_append, errorsAt_ite, errorsAt_ite_not,
      errorsAt_nil, validateRegexField_eq, validateMultilineLines_eq,
      errorsAt_validatePatterns, Path.Child_inj, fieldRequired_Field,
      fieldInvalid_Field, fieldNotSupported_Field,
      validateTypes_of_ok json ords.own path _ hp, errorsAt_validateFieldTypes, hc]
  · intro opt
    simp [unsupportedToken, textBeforeFirstColon_time]
  · intro typesField name opt rest
    simp only [validateFieldTypes, stringsSplitN2_head, textBeforeFirstColon_time]
    simp [validParserFieldTypes, StringSet.Has]

/-- Witness of C3: with `types` set to `a:string,b:time:utc,c:bogus,d:e` two
entries are offending and two errors are reported at `types`. -/
theorem types_error_count_witness :
    errorsAt (validateSingleParseSection jsonRejectAll RangeOrder.reversed []
        { Format := "json", Types := "a:string,b:time:utc,c:bogus,d:e" }) [PathElem.name "types"]
      = 2 ∧
    errorsAt (validateParseSection jsonRejectAll (SectionOrders.const RangeOrder.insertion) []
        { Type_ := "json", Types := "a:string,b:time:utc,c:bogus,d:e" }) [PathElem.name "types"]
      = 2 := by
  have hthm := types_error_count jsonRejectAll RangeOrder.reversed
    (SectionOrders.const RangeOrder.insertion) []
    { Format := "json", Types := "a:string,b:time:utc,c:bogus,d:e" }
    { Type_ := "json", Types := "a:string,b:time:utc,c:bogus,d:e" } (by decide) (by decide)
  exact ⟨hthm.1.trans (by decide), hthm.2.1.trans (by decide)⟩

/-- C6: in both section validators the number of errors at `local_time` and
the number of errors at `utc` are 1 when `local_time` and `utc` are both true
and 0 otherwise. -/
theorem local_time_utc_error_counts (json : JsonUnmarshal) (ord : RangeOrder)
    (ords : SectionOrders) (path : Path) (single : SingleParseSection)
    (parse : ParseSection) :
    errorsAt (validateParseSection json ords path parse) (path.Child "local_time")
      = (if parse.LocalTime = true ∧ parse.UTC = true then 1 else 0) ∧
    errorsAt (validateParseSection json ords path parse) (path.Child "utc")
      = (if parse.LocalTime = true ∧ parse.UTC = true then 1 else 0) ∧
    errorsAt (validateSingleParseSection json ord path single) (path.Child "local_time")
      = (if single.LocalTime = true ∧ single.UTC = true then 1 else 0) ∧
    errorsAt (validateSingleParseSection json ord path single) (path.Child "utc")
      = (if single.LocalTime = true ∧ single.UTC = true then 1 else 0) := by
  refine ⟨?_, ?_, ?_, ?_⟩ <;>
    simp [validateParseSection, validateSingleParseSection, errorsAt_append, errorsAt_ite,
      errorsAt_ite_not, errorsAt_nil, validateRegexField_eq, validateMultilineLines_eq,
      errorsAt_validatePatterns, errorsAt_validateTypes_other, Path.Child_inj,
      fieldRequired_Field, fieldInvalid_Field, fieldNotSupported_Field]

/-- C4, behaviour of the code: a section whose kind is `regexp` and whose
expression is empty gets no error at `expression` from either section
validator, so the Required error demanded for the regex kind is missing. -/
theorem regexp_kind_empty_expression_unreported (json : JsonUnmarshal) (ord : RangeOrder)
    (ords : SectionOrders) (path : Path) (single : SingleParseSection)
    (parse : ParseSection)
    (hsf : single.Format = "regexp") (hse : single.Expression = "")
    (hpt : parse.Type_ = "regexp") (hpe : parse.Expression = "") :
    errorsAt (validateSingleParseSection json ord path single) (path.Child "expression") = 0 ∧
    errorsAt (validateParseSection json ords path parse) (path.Child "expression") = 0 := by
  refine ⟨?_, ?_⟩
  · simp [validateSingleParseSection, errorsAt_append, errorsAt_ite, errorsAt_ite_not,
      errorsAt_nil, validateRegexField_eq, errorsAt_validateTypes_other, Path.Child_inj,
      fieldRequired_Field, fieldInvalid_Field, fieldNotSupported_Field, hsf, hse]
  · simp [validateParseSection, errorsAt_append, errorsAt_ite, errorsAt_ite_not,
      errorsAt_nil, validateRegexField_eq, validateMultilineLines_eq,
      errorsAt_validatePatterns, errorsAt_validateTypes_other, Path.Child_inj,
      fieldRequired_Field, fieldInvalid_Field, fieldNotSupported_Field, hpt, hpe]

/-- Witness of the C4 evaluation: the sections with kind `regexp` and nothing
else set get no error at all, in particular none at `expression`. -/
theorem regexp_kind_empty_expression_unreported_witness :
    validateSingleParseSection jsonRejectAll RangeOrder.insertion [] { Format := "regexp" } = [] ∧
    validateParseSection jsonRejectAll (SectionOrders.const RangeOrder.insertion) []
      { Type_ := "regexp" } = [] ∧
    errorsAt (validateSingleParseSection jsonRejectAll RangeOrder.insertion []
      { Format := "regexp" }) (Path.Child [] "expression") = 0 ∧
    errorsAt (validateParseSection jsonRejectAll (SectionOrders.const RangeOrder.insertion) []
      { Type_ := "regexp" }) (Path.Child [] "expression") = 0 :=
  ⟨by decide, by decide,
    regexp_kind_empty_expression_unreported jsonRejectAll RangeOrder.insertion
      (SectionOrders.const RangeOrder.insertion) [] { Format := "regexp" }
      { Type_ := "regexp" } rfl rfl rfl rfl⟩

/-- C5: for a section validated by `validateSingleParseSection` whose format
is a kind of the nested vocabulary other than `regexp`, and for a section
validated by `validateParseSection` whose type is a kind of the top-level
vocabulary other than `regexp`, the number of errors at `expression` is 1 when
the expression is non-empty and 0 when it is empty. -/
theorem expression_under_non_regex_kind (json : JsonUnmarshal) (ord : RangeOrder)
    (ords : SectionOrders) (path : Path) (single : SingleParseSection)
    (parse : ParseSection)
    (hsk : single.Format ∈ validSingleParserTypes.elems) (_hsr : single.Format ≠ "regexp")
    (hpk : parse.Type_ ∈ validParserTypes.elems) (_hpr : parse.Type_ ≠ "regexp") :
    errorsAt (validateSingleParseSection json ord path single) (path.Child "expression")
      = (if single.Expression ≠ "" then 1 else 0) ∧
    errorsAt (validateParseSection json ords path parse) (path.Child "expression")
      = (if parse.Expression ≠ "" then 1 else 0) := by
  have hs : single.Format ≠ "regex" := by
    intro h
    rw [h] at hsk
    exact absurd hsk (by decide)
  have hp : parse.Type_ ≠ "regex" := by
    intro h
    rw [h] at hpk
    exact absurd hpk (by decide)
  refine ⟨?_, ?_⟩
  · simp [validateSingleParseSection, errorsAt_append, errorsAt_ite, errorsAt_ite_not,
      errorsAt_nil, validateRegexField_eq, errorsAt_validateTypes_other, Path.Child_inj,
      fieldRequired_Field, fieldInvalid_Field, fieldNotSupported_Field, hs]
  · simp [validateParseSection, errorsAt_append, errorsAt_ite, errorsAt_ite_not,
      errorsAt_nil, validateRegexField_eq, validateMultilineLines_eq,
      errorsAt_validatePatterns, errorsAt_validateTypes_other, Path.Child_inj,
      fieldRequired_Field, fieldInvalid_Field, fieldNotSupported_Field, hp]

/-- Witness of C5: with kind `json` and the expression `x` each validator
reports one error at `expression`. -/
theorem expression_under_non_regex_kind_witness :
    errorsAt (validateSingleParseSection jsonRejectAll RangeOrder.insertion []
      { Format := "json", Expression := "x" }) (Path.Child [] "expression") = 1 ∧
    errorsAt (validateParseSection jsonRejectAll (SectionOrders.const RangeOrder.insertion) []
      { Type_ := "json", Expression := "x" }) (Path.Child [] "expression") = 1 :=
  expression_under_non_regex_kind jsonRejectAll RangeOrder.insertion
    (SectionOrders.const RangeOrder.insertion) [] { Format := "json", Expression := "x" }
    { Type_ := "json", Expression := "x" } (by decide) (by decide) (by decide) (by decide)

/-- C7: the number of errors `validateParseSection` reports at `delimiter` is
(1 if the delimiter is non-empty and the type is not `ltsv`, else 0) plus (1 if
delimiter and delimiter pattern are both non-empty, else 0); so a section of
type `ltsv` with both set has at least one error at `delimiter`. -/
theorem delimiter_error_count (json : JsonUnmarshal) (ords : SectionOrders) (path : Path)
    (parse : ParseSection) :
    errorsAt (validateParseSection json ords path parse) (path.Child "delimiter")
      = (if parse.Delimiter ≠ "" ∧ parse.Type_ ≠ "ltsv" then 1 else 0)
        + (if parse.Delimiter ≠ "" ∧ parse.DelimiterPattern ≠ "" then 1 else 0) ∧
    (parse.Type_ = "ltsv" → parse.Delimiter ≠ "" → parse.DelimiterPattern ≠ "" →
      1 ≤ errorsAt (validateParseSection json ords path parse) (path.Child "delimiter")) := by
  have hcount : errorsAt (validateParseSection json ords path parse) (path.Child "delimiter")
      = (if parse.Delimiter ≠ "" ∧ parse.Type_ ≠ "ltsv" then 1 else 0)
        + (if parse.Delimiter ≠ "" ∧ parse.DelimiterPattern ≠ "" then 1 else 0) := by
    simp [validateParseSection, errorsAt_append, errorsAt_ite, errorsAt_ite_not,
      errorsAt_nil, validateRegexField_eq, validateMultilineLines_eq,
      errorsAt_validatePatterns, errorsAt_validateTypes_other, Path.Child_inj,
      fieldRequired_Field, fieldInvalid_Field, fieldNotSupported_Field]
  refine ⟨hcount, fun _ hd hdp => ?_⟩
  rw [hcount, if_pos (show parse.Delimiter ≠ "" ∧ parse.DelimiterPattern ≠ "" from ⟨hd, hdp⟩)]
  omega

/-- Witness of C7: a section of type `ltsv` with delimiter and delimiter pattern
both set has one error at `delimiter`. -/
theorem delimiter_error_count_witness :
    errorsAt (validateParseSection jsonRejectAll (SectionOrders.const RangeOrder.insertion) []
      { Type_ := "ltsv", Delimiter := ";", DelimiterPattern := "x" }) (Path.Child [] "delimiter")
      = 1 ∧
    1 ≤ errorsAt (validateParseSection jsonRejectAll (SectionOrders.const RangeOrder.insertion)
      [] { Type_ := "ltsv", Delimiter := ";", DelimiterPattern := "x" })
      (Path.Child [] "delimiter") :=
  ⟨by decide,
    (delimiter_error_count jsonRejectAll (SectionOrders.const RangeOrder.insertion) []
      { Type_ := "ltsv", Delimiter := ";", DelimiterPattern := "x" }).2
      (by decide) (by decide) (by decide)⟩

/-- C8: `validateParseSection` reports at `delimiter_pattern` and at
`label_delimiter` one error when the field is non-empty and the type is not
`ltsv`, at `format_firstline` one error when the field is non-empty and the
type is not `multiline`, at `multiline` one error when the list is non-empty
and the type is not `multiline`, and none otherwise; it never reports an error
at an element path `multiline[i]`, the regex check accepting every value. -/
theorem kind_restricted_field_error_counts (json : JsonUnmarshal) (ords : SectionOrders)
    (path : Path) (parse : ParseSection) :
    errorsAt (validateParseSection json ords path parse) (path.Child "delimiter_pattern")
      = (if parse.DelimiterPattern ≠ "" ∧ parse.Type_ ≠ "ltsv" then 1 else 0) ∧
    errorsAt (validateParseSection json ords path parse) (path.Child "label_delimiter")
      = (if parse.LabelDelimiter ≠ "" ∧ parse.Type_ ≠ "ltsv" then 1 else 0) ∧
    errorsAt (validateParseSection json ords path parse) (path.Child "format_firstline")
      = (if parse.FormatFirstline ≠ "" ∧ parse.Type_ ≠ "multiline" then 1 else 0) ∧
    errorsAt (validateParseSection json ords path parse) (path.Child "multiline")
      = (if parse.Multiline ≠ [] ∧ parse.Type_ ≠ "multiline" then 1 else 0) ∧
    (∀ i : Nat, errorsAt (validateParseSection json ords path parse)
      ((path.Child "multiline").Index i) = 0) ∧
    (∀ value : String, ValidateFluentdRegex value = none) := by
  refine ⟨?_, ?_, ?_, ?_, fun i => ?_, fun _ => rfl⟩ <;>
    simp [validateParseSection, errorsAt_append, errorsAt_ite, errorsAt_ite_not,
      errorsAt_nil, validateRegexField_eq, validateMultilineLines_eq,
      errorsAt_validatePatterns, errorsAt_validatePatterns_Index,
      errorsAt_validateTypes_other, errorsAt_validateTypes_Index, Path.Child_inj,
      Path.Child_ne_Index, fieldRequired_Field, fieldInvalid_Field, fieldNotSupported_Field,
      List.length_pos]

/-- C9: `validateParseSection` reports one NotSupported error at `type` when
the type is outside the top-level vocabulary and none when it is inside;
`validateSingleParseSection` reports one NotSupported error at `format` when
the format is outside the nested vocabulary and none when it is inside; the
nested vocabulary is included in the top-level one and lacks `multi_format`,
which the top-level one has. -/
theorem selector_vocabulary_errors (json : JsonUnmarshal) (ord : RangeOrder)
    (ords : SectionOrders) (path : Path) (single : SingleParseSection)
    (parse : ParseSection) :
    errorsOfTypeAt (validateParseSection json ords path parse) ErrorType.NotSupported
        (path.Child "type")
      = (if parse.Type_ ∈ validParserTypes.elems then 0 else 1) ∧
    errorsOfTypeAt (validateSingleParseSection json ord path single) ErrorType.NotSupported
        (path.Child "format")
      = (if single.Format ∈ validSingleParserTypes.elems then 0 else 1) ∧
    validSingleParserTypes.elems ⊆ validParserTypes.elems ∧
    "multi_format" ∉ validSingleParserTypes.elems ∧
    "multi_format" ∈ validParserTypes.elems := by
  refine ⟨?_, ?_, by decide, by decide, by decide⟩
  · by_cases h : parse.Type_ ∈ validParserTypes.elems <;>
      simp [validateParseSection, errorsOfTypeAt_append, errorsOfTypeAt_ite,
        errorsOfTypeAt_ite_not, errorsOfTypeAt_nil, validateRegexField_eq,
        validateMultilineLines_eq, errorsOfTypeAt_validatePatterns,
        errorsOfTypeAt_validateTypes_other, Path.Child_inj, fieldRequired_Field,
        fieldInvalid_Field, fieldNotSupported_Field, fieldRequired_Type, fieldInvalid_Type,
        fieldNotSupported_Type, StringSet.Has_iff, h]
  · by_cases h : single.Format ∈ validSingleParserTypes.elems <;>
      simp [validateSingleParseSection, errorsOfTypeAt_append, errorsOfTypeAt_ite,
        errorsOfTypeAt_ite_not, errorsOfTypeAt_nil, validateRegexField_eq,
        errorsOfTypeAt_validateTypes_other, Path.Child_inj, fieldRequired_Field,
        fieldInvalid_Field, fieldNotSupported_Field, fieldRequired_Type, fieldInvalid_Type,
        fieldNotSupported_Type, StringSet.Has_iff, h]

/-- C10: when the `types` string of a section fails to decode with error `e`,
the errors `validateParseSection` reports at `types` are exactly the one error
carrying `e` (so no type-token error), and its errors at all other paths are,
in the same order, the errors it reports for the section with `types` replaced
by the empty string, which has no error at `types`. -/
theorem malformed_types_leaves_siblings (json : JsonUnmarshal) (ords : SectionOrders)
    (path : Path) (parse : ParseSection) (e : HashError)
    (h : (ParseFluentdHash json parse.Types).2 = some e) :
    (validateParseSection json ords path parse).filter
        (fun err => decide (err.Field = path.Child "types"))
      = [fieldInvalid (path.Child "types") (BadValue.str parse.Types) (Detail.hashError e)] ∧
    (validateParseSection json ords path parse).filter
        (fun err => decide (err.Field ≠ path.Child "types"))
      = validateParseSection json ords path { parse with Types := "" } ∧
    errorsAt (validateParseSection json ords path { parse with Types := "" })
      (path.Child "types") = 0 := by
  have hpat : (validatePatterns json ords.patterns path 0 parse.Patterns).filter
      (fun err => decide (err.Field = path.Child "types")) = [] := by
    rw [List.filter_eq_nil_iff]
    intro err herr
    have hne := validatePatterns_Field_ne json ords.patterns path 0 parse.Patterns
      (path.Child "types") (by rw [Path.length_Child]; omega) err herr
    simpa using hne
  have hpat2 : ∀ err ∈ validatePatterns json ords.patterns path 0 parse.Patterns,
      ¬ err.Field = path.Child "types" :=
    validatePatterns_Field_ne json ords.patterns path 0 parse.Patterns
      (path.Child "types") (by rw [Path.length_Child]; omega)
  refine ⟨?_, ?_, ?_⟩
  · simp [validateParseSection, List.filter_append, filter_ite, filter_ite_not,
      validateRegexField_eq, validateMultilineLines_eq, Path.Child_inj,
      fieldRequired_Field, fieldInvalid_Field, fieldNotSupported_Field,
      validateTypes_of_error json ords.own path _ e h, hpat]
  · simp [validateParseSection, List.filter_append, filter_ite, filter_ite_not,
      validateRegexField_eq, validateMultilineLines_eq, Path.Child_inj,
      fieldRequired_Field, fieldInvalid_Field, fieldNotSupported_Field,
      validateTypes_of_error json ords.own path _ e h, validateTypes_empty]
    exact hpat2
  · simp [validateParseSection, errorsAt_append, errorsAt_ite, errorsAt_ite_not,
      errorsAt_nil, validateRegexField_eq, validateMultilineLines_eq,
      errorsAt_validatePatterns, validateTypes_empty, Path.Child_inj,
      fieldRequired_Field, fieldInvalid_Field, fieldNotSupported_Field]

/-- Witness of C10: a section of type `csv` with `types` set to `a`, with both
time flags set and one nested pattern. -/
theorem malformed_types_leaves_siblings_witness :
    (ParseFluentdHash jsonRejectAll "a").2 = some (HashError.missingValue "a") ∧
    (validateParseSection jsonRejectAll (SectionOrders.const RangeOrder.insertion) []
        { Type_ := "csv", Types := "a", LocalTime := true, UTC := true,
          Patterns := [{ Format := "bogus", Types := "b" }] }).filter
        (fun err => decide (err.Field ≠ Path.Child [] "types"))
      = validateParseSection jsonRejectAll (SectionOrders.const RangeOrder.insertion) []
        { Type_ := "csv", Types := "", LocalTime := true, UTC := true,
          Patterns := [{ Format := "bogus", Types := "b" }] } :=
  ⟨by decide,
    (malformed_types_leaves_siblings jsonRejectAll (SectionOrders.const RangeOrder.insertion) []
      { Type_ := "csv", Types := "a", LocalTime := true, UTC := true,
        Patterns := [{ Format := "bogus", Types := "b" }] }
      (HashError.missingValue "a") (by decide)).2.1⟩

/-! ## Lemmas on the loops over filters and patterns -/

theorem validatePatterns_eq_join (json : JsonUnmarshal) (ords : Nat → RangeOrder)
    (path : Path) (i : Nat) (patterns : List SingleParseSection) :
    validatePatterns json ords path i patterns
      = ((patterns.enumFrom i).map fun p =>
          validateSingleParseSection json (ords p.1) ((path.Child "patterns").Index p.1)
            p.2).flatten := by
  induction patterns generalizing i with
  | nil => simp [validatePatterns]
  | cons pattern rest ih => simp [validatePatterns, List.enumFrom_cons, ih]

theorem validateFiltersFrom_eq_join (json : JsonUnmarshal) (ords : Nat → SectionOrders)
    (path : Path) (i : Nat) (filters : List Filter) :
    validateFiltersFrom json ords path i filters
      = ((filters.enumFrom i).map fun p =>
          validateFilter json (ords p.1) (path.Index p.1) p.2).flatten := by
  induction filters generalizing i with
  | nil => simp [validateFiltersFrom]
  | cons filter rest ih => simp [validateFiltersFrom, List.enumFrom_cons, ih]

theorem filter_validateTypes_other (json : JsonUnmarshal) (ord : RangeOrder) (path : Path)
    (typesField : String) (a : String) (ha : a ≠ "types") :
    (validateTypes json ord path typesField).filter
        (fun e => decide (e.Field = path.Child a)) = [] := by
  rw [List.filter_eq_nil_iff]
  intro e he
  rw [validateTypes_Field json ord path typesField e he]
  simpa [Path.Child_inj] using fun h : "types" = a => ha h.symm

/-! ## Claims on the traversal -/

/-- C11: the errors of `validateFlowSpec` are the concatenation, in order of
the index i, of the errors of `validateFilter` on filter i under the path
`filters[i]`; a filter with no parser configuration contributes no errors; a
specification with no filters yields the empty list. -/
theorem validateFlowSpec_concatenates_filters (json : JsonUnmarshal)
    (ords : Nat → SectionOrders) (path : Path) (spec : FlowSpec) :
    validateFlowSpec json ords path spec
      = (spec.Filters.enum.map fun p =>
          validateFilter json (ords p.1) ((path.Child "filters").Index p.1) p.2).flatten ∧
    (∀ (o : SectionOrders) (q : Path) (filter : Filter),
      filter.Parser = none → validateFilter json o q filter = []) ∧
    validateFlowSpec json ords path { Filters := [] } = [] := by
  refine ⟨?_, ?_, rfl⟩
  · simp [validateFlowSpec, validateFilters, validateFiltersFrom_eq_join, List.enum]
  · intro o q filter hnone
    simp [validateFilter, StdOutFilterConfig.ValidateFields, ParserConfig.ValidateFields, hnone]

/-- Witness of C11: a flow whose first filter has only a stdout configuration
and whose second filter has a parser with an unsupported type. -/
theorem validateFlowSpec_concatenates_filters_witness :
    validateFilter jsonRejectAll (SectionOrders.const RangeOrder.insertion)
      (Path.Index (Path.Child (NewPath "spec") "filters") 0) { StdOut := some {} } = [] ∧
    validateFlowSpec jsonRejectAll (fun _ => SectionOrders.const RangeOrder.insertion)
        (NewPath "spec")
        { Filters := [{ StdOut := some {} }, { Parser := some { Parse := { Type_ := "bogus" } } }] }
      = [fieldNotSupported
          [PathElem.name "spec", PathElem.name "filters", PathElem.index 1,
            PathElem.name "parser", PathElem.name "parse", PathElem.name "type"]
          (BadValue.str "bogus") validParserTypes.List] :=
  ⟨(validateFlowSpec_concatenates_filters jsonRejectAll
      (fun _ => SectionOrders.const RangeOrder.insertion) (NewPath "spec") {}).2.1
      (SectionOrders.const RangeOrder.insertion) _ { StdOut := some {} } rfl,
    by decide⟩

/-- C12: the errors of `validateParseSection` on a section are its errors on
the section with the patterns emptied, followed by the concatenation, in order
of the index i, of the errors of `validateSingleParseSection` on pattern i
under the path `patterns[i]`. -/
theorem validateParseSection_appends_patterns (json : JsonUnmarshal) (ords : SectionOrders)
    (path : Path) (parse : ParseSection) :
    validateParseSection json ords path parse
      = validateParseSection json ords path { parse with Patterns := [] }
        ++ (parse.Patterns.enum.map fun p =>
            validateSingleParseSection json (ords.patterns p.1)
              ((path.Child "patterns").Index p.1) p.2).flatten := by
  simp [validateParseSection, validatePatterns_eq_join, List.enum, validatePatterns]

/-- C13: `validateSingleParseSection` reports at `type` exactly one error when
the type field is non-empty and none when it is empty; that error has kind
Invalid and its offending value is the `format` value of the pattern. -/
theorem single_type_field_error (json : JsonUnmarshal) (ord : RangeOrder) (path : Path)
    (single : SingleParseSection) :
    (validateSingleParseSection json ord path single).filter
        (fun e => decide (e.Field = path.Child "type"))
      = (if single.Type_ ≠ "" then
          [{ Type_ := ErrorType.Invalid, Field := path.Child "type",
             BadValue := BadValue.str single.Format,
             Detail := Detail.text "'type' cannot be specified in patterns, use 'format'" }]
        else []) ∧
    errorsAt (validateSingleParseSection json ord path single) (path.Child "type")
      = (if single.Type_ ≠ "" then 1 else 0) := by
  refine ⟨?_, ?_⟩
  · by_cases h : single.Type_ = "" <;>
      simp [validateSingleParseSection, List.filter_append, filter_ite, filter_ite_not,
        validateRegexField_eq, Path.Child_inj, fieldRequired_Field, fieldInvalid_Field,
        fieldNotSupported_Field, filter_validateTypes_other, h, fieldInvalid]
  · simp [validateSingleParseSection, errorsAt_append, errorsAt_ite, errorsAt_ite_not,
      errorsAt_nil, validateRegexField_eq, errorsAt_validateTypes_other, Path.Child_inj,
      fieldRequired_Field, fieldInvalid_Field, fieldNotSupported_Field]

/-! ## Lemmas on the keys of the decoded map -/

theorem GoMap.mem_keys_set (m : GoMap) (k v k' : String) :
    k' ∈ (m.set k v).map Prod.fst ↔ k' = k ∨ k' ∈ m.map Prod.fst := by
  induction m with
  | nil => simp [GoMap.set]
  | cons kv rest ih =>
    obtain ⟨k0, v0⟩ := kv
    by_cases h0 : k0 = k
    · subst h0
      simp [GoMap.set]
    · simp only [GoMap.set, if_neg h0, List.map_cons, List.mem_cons, ih]
      tauto

theorem GoMap.nodup_keys_set (m : GoMap) (k v : String) (h : (m.map Prod.fst).Nodup) :
    ((m.set k v).map Prod.fst).Nodup := by
  induction m with
  | nil => simp [GoMap.set]
  | cons kv rest ih =>
    obtain ⟨k0, v0⟩ := kv
    simp only [List.map_cons, List.nodup_cons] at h
    by_cases h0 : k0 = k
    · subst h0
      simpa [GoMap.set] using h
    · simp only [GoMap.set, if_neg h0, List.map_cons, List.nodup_cons, GoMap.mem_keys_set]
      refine ⟨?_, ih h.2⟩
      rintro (h1 | h1)
      · exact h0 h1
      · exact h.1 h1

theorem GoMap.mem_keys_iff (m : GoMap) (k : String) :
    k ∈ m.map Prod.fst ↔ (m.get? k).isSome = true := by
  induction m with
  | nil => simp [GoMap.get?]
  | cons kv rest ih =>
    obtain ⟨k0, v0⟩ := kv
    by_cases h0 : k0 = k
    · simp [GoMap.get?, h0]
    · have h1 : ¬ k = k0 := fun e => h0 e.symm
      simp [GoMap.get?, h0, h1, ih]

theorem parseSegments_nodup_keys (segs : List String) (results : GoMap)
    (h : (results.map Prod.fst).Nodup) :
    ((parseSegments segs results).1.map Prod.fst).Nodup := by
  induction segs generalizing results with
  | nil => simpa [parseSegments] using h
  | cons seg rest ih =>
    by_cases hc : ':' ∈ seg.data
    · simp only [parseSegments, stringsSplitN2_of_colon seg hc, List.length_cons,
        List.length_nil]
      rw [if_neg (by decide)]
      exact ih _ (GoMap.nodup_keys_set _ _ _ h)
    · simp [parseSegments, stringsSplitN2_of_no_colon seg hc]

theorem segments_have_colon_of_ok (segs : List String) (results : GoMap)
    (h : (parseSegments segs results).2 = none) : ∀ seg ∈ segs, ':' ∈ seg.data := by
  rw [parseSegments_error] at h
  simp only [Option.map_eq_none', List.find?_eq_none] at h
  intro seg hseg
  simpa [hasNoColon] using h seg hseg

/-! ## Further claims on `ParseFluentdHash` -/

/-- C14: for a non-empty input in the string form that decodes successfully,
a name that occurs in more than one segment is mapped to the token of its last
occurrence; the keys of the returned map are pairwise distinct and are exactly
the distinct names of the segments; `a:string,a:bogus` decodes to a→bogus. -/
theorem ParseFluentdHash_last_write_wins (json : JsonUnmarshal) (value : String)
    (h : stringsHasPrefix value "\x7b" = false) (hne : value ≠ "")
    (hok : (ParseFluentdHash json value).2 = none) :
    (∀ name, 2 ≤ ((stringsSplit value ',').filter fun seg =>
        decide (textBeforeFirstColon seg = name)).length →
      ∃ seg, (stringsSplit value ',').reverse.find?
          (fun seg => decide (textBeforeFirstColon seg = name)) = some seg ∧
        (ParseFluentdHash json value).1.get? name = some (textAfterFirstColon seg)) ∧
    ((ParseFluentdHash json value).1.map Prod.fst).Nodup ∧
    ((ParseFluentdHash json value).1.map Prod.fst).Perm
      ((stringsSplit value ',').map textBeforeFirstColon).dedup ∧
    ParseFluentdHash json "a:string,a:bogus" = ([("a", "bogus")], none) := by
  rw [ParseFluentdHash_string_form json value hne h] at hok ⊢
  have hall := segments_have_colon_of_ok _ _ hok
  have hnodup := parseSegments_nodup_keys (stringsSplit value ',') [] (by simp)
  have hget : ∀ name, (parseSegments (stringsSplit value ',') []).1.get? name
      = ((stringsSplit value ',').reverse.find? fun seg =>
          decide (textBeforeFirstColon seg = name)).map textAfterFirstColon := by
    intro name
    rw [parseSegments_get? _ _ hall name]
    simp [GoMap.get?]
  refine ⟨fun name hcount => ?_, hnodup, ?_, ?_⟩
  · rcases hf : (stringsSplit value ',').reverse.find?
        (fun seg => decide (textBeforeFirstColon seg = name)) with _ | seg
    · exfalso
      rw [List.find?_eq_none] at hf
      have hnil : (stringsSplit value ',').filter
          (fun seg => decide (textBeforeFirstColon seg = name)) = [] := by
        rw [List.filter_eq_nil_iff]
        intro seg hseg
        exact hf seg (List.mem_reverse.mpr hseg)
      rw [hnil] at hcount
      simp at hcount
    · exact ⟨seg, rfl, by rw [hget name, hf]; rfl⟩
  · rw [List.perm_ext_iff_of_nodup hnodup (List.nodup_dedup _)]
    intro name
    rw [GoMap.mem_keys_iff, hget name, List.mem_dedup, Option.isSome_map']
    simp only [List.find?_isSome, List.mem_reverse, decide_eq_true_eq, List.mem_map]
  · rw [ParseFluentdHash_string_form json _ (by decide) (by decide)]
    decide

/-- Witness of C14 at `a:string,b:x,a:bogus`: the name `a` occurs twice and is
mapped to `bogus`, and the map has the two keys `a` and `b`. -/
theorem ParseFluentdHash_last_write_wins_witness :
    (ParseFluentdHash jsonRejectAll "a:string,b:x,a:bogus").1.get? "a" = some "bogus" ∧
    ((ParseFluentdHash jsonRejectAll "a:string,b:x,a:bogus").1.map Prod.fst).Nodup ∧
    (ParseFluentdHash jsonRejectAll "a:string,b:x,a:bogus").1.length = 2 := by
  have hthm := ParseFluentdHash_last_write_wins jsonRejectAll "a:string,b:x,a:bogus"
    (by decide) (by decide) (by decide)
  exact ⟨by decide, hthm.2.1, by decide⟩

/-! ## Lemmas on the JSON branch and on the errors at `types` -/

theorem foldl_set_get? (members : List (String × String)) (results : GoMap) (name : String) :
    (members.foldl (fun results kv => results.set kv.1 kv.2) results).get? name
      = ((members.reverse.find? fun kv => decide (kv.1 = name)).map Prod.snd).or
          (results.get? name) := by
  induction members generalizing results with
  | nil => simp
  | cons kv rest ih =>
    rw [List.foldl_cons, ih, GoMap.get?_set, List.reverse_cons, List.find?_append]
    cases hf : rest.reverse.find? fun kv => decide (kv.1 = name) <;>
      by_cases hn : kv.1 = name <;> simp [hn]

theorem foldl_set_nodup_keys (members : List (String × String)) (results : GoMap)
    (h : (results.map Prod.fst).Nodup) :
    ((members.foldl (fun results kv => results.set kv.1 kv.2) results).map Prod.fst).Nodup := by
  induction members generalizing results with
  | nil => simpa using h
  | cons kv rest ih =>
    rw [List.foldl_cons]
    exact ih _ (GoMap.nodup_keys_set _ _ _ h)

theorem ParseFluentdHash_json_form (json : JsonUnmarshal) (value : String)
    (h : stringsHasPrefix value "\x7b" = true) :
    ParseFluentdHash json value =
      match json value with
      | Except.error msg => ([], some (HashError.json msg))
      | Except.ok members =>
        (members.foldl (fun results kv => results.set kv.1 kv.2) [], none) := by
  have hne : value ≠ "" := by
    rintro rfl
    exact absurd h (by decide)
  simp [ParseFluentdHash, hne, h]

theorem errorsAt_validateTypes_of_ok (json : JsonUnmarshal) (ord : RangeOrder) (path : Path)
    (typesField : String) (h : (ParseFluentdHash json typesField).2 = none) :
    errorsAt (validateTypes json ord path typesField) (path.Child "types")
      = (ParseFluentdHash json typesField).1.countP fun kv => unsupportedToken kv.2 := by
  rw [validateTypes_of_ok json ord path typesField h, errorsAt_validateFieldTypes]
  exact (ord.perm _).countP_eq _

theorem errorsAt_validateSingleParseSection_types (json : JsonUnmarshal) (ord : RangeOrder)
    (path : Path) (single : SingleParseSection) :
    errorsAt (validateSingleParseSection json ord path single) (path.Child "types")
      = errorsAt (validateTypes json ord path single.Types) (path.Child "types") := by
  simp [validateSingleParseSection, errorsAt_append, errorsAt_ite, errorsAt_ite_not,
    errorsAt_nil, validateRegexField_eq, Path.Child_inj, fieldRequired_Field,
    fieldInvalid_Field, fieldNotSupported_Field]

theorem errorsAt_validateParseSection_types (json : JsonUnmarshal) (ords : SectionOrders)
    (path : Path) (parse : ParseSection) :
    errorsAt (validateParseSection json ords path parse) (path.Child "types")
      = errorsAt (validateTypes json ords.own path parse.Types) (path.Child "types") := by
  simp [validateParseSection, errorsAt_append, errorsAt_ite, errorsAt_ite_not,
    errorsAt_nil, validateRegexField_eq, validateMultilineLines_eq,
    errorsAt_validatePatterns, Path.Child_inj, fieldRequired_Field,
    fieldInvalid_Field, fieldNotSupported_Field]

/-! ## Lemmas on the JSON scanner

Once the top-level value is an object, it stays the kind of the document: the
scanner only fixes the kind while its stack is empty, and after the first
brace the stack is empty again only when the document has ended. -/

theorem Scanner.pop_keeps (s : Scanner) :
    s.pop.top = s.top ∧ (s.pop.parseState ≠ [] ∨ s.pop.step = ScanStep.endTop) := by
  unfold Scanner.pop
  split
  · simp
  · rename_i rest hrest
    refine ⟨rfl, Or.inl ?_⟩
    simpa using hrest

theorem Scanner.endValue_keeps (s s' : Scanner) (c : Char) (hs : s.parseState ≠ [])
    (h : s.endValue c = some s') :
    s'.top = s.top ∧ (s'.parseState ≠ [] ∨ s'.step = ScanStep.endTop) := by
  obtain ⟨step, ps, endTop, units, hex, key, top, members⟩ := s
  cases ps with
  | nil => exact absurd rfl hs
  | cons p rest =>
    cases p <;> simp only [Scanner.endValue] at h <;> split_ifs at h <;>
      first
        | (cases h; simp; done)
        | (cases h; exact Scanner.pop_keeps _)

theorem Scanner.noteValue_keeps (s : Scanner) (c : Char) (hs : s.parseState ≠ []) :
    (s.noteValue c).top = s.top ∧ (s.noteValue c).parseState = s.parseState := by
  unfold Scanner.noteValue
  split
  · rename_i hnil
    exact absurd hnil hs
  · split <;> exact ⟨rfl, rfl⟩
  · exact ⟨rfl, rfl⟩

theorem Scanner.beginValue_keeps (s s' : Scanner) (c : Char) (hs : s.parseState ≠ [])
    (h : s.beginValue c = some s') :
    s'.top = s.top ∧ (s'.parseState ≠ [] ∨ s'.step = ScanStep.endTop) := by
  have hnote := Scanner.noteValue_keeps s c hs
  unfold Scanner.beginValue at h
  repeat' split at h
  all_goals first
    | exact (Option.some_ne_none _ h.symm).elim
    | (rw [← Option.some.inj h]; exact ⟨rfl, Or.inl hs⟩)
    | (rw [← Option.some.inj h]; exact ⟨hnote.1, Or.inl (List.cons_ne_nil _ _)⟩)
    | (rw [← Option.some.inj h]; exact ⟨hnote.1, Or.inl (hnote.2.symm ▸ hs)⟩)

theorem Scanner.beginString_keeps (s s' : Scanner) (c : Char) (hs : s.parseState ≠ [])
    (h : s.beginString c = some s') :
    s'.top = s.top ∧ (s'.parseState ≠ [] ∨ s'.step = ScanStep.endTop) := by
  unfold Scanner.beginString at h
  repeat' split at h
  all_goals first
    | exact (Option.some_ne_none _ h.symm).elim
    | (rw [← Option.some.inj h]; exact ⟨rfl, Or.inl hs⟩)

theorem Scanner.endString_keeps (s : Scanner) (hs : s.parseState ≠ []) :
    s.endString.top = s.top ∧ (s.endString.parseState ≠ [] ∨ s.endString.step = ScanStep.endTop) := by
  unfold Scanner.endString
  simp only
  split <;> exact ⟨rfl, Or.inl hs⟩

theorem Scanner.afterInteger_keeps (s s' : Scanner) (c : Char) (hs : s.parseState ≠ [])
    (h : s.afterInteger c = some s') :
    s'.top = s.top ∧ (s'.parseState ≠ [] ∨ s'.step = ScanStep.endTop) := by
  unfold Scanner.afterInteger at h
  repeat' split at h
  all_goals first
    | (rw [← Option.some.inj h]; exact ⟨rfl, Or.inl hs⟩)
    | exact Scanner.endValue_keeps s s' c hs h

theorem Scanner.afterExponentSign_keeps (s s' : Scanner) (c : Char) (hs : s.parseState ≠ [])
    (h : s.afterExponentSign c = some s') :
    s'.top = s.top ∧ (s'.parseState ≠ [] ∨ s'.step = ScanStep.endTop) := by
  unfold Scanner.afterExponentSign at h
  repeat' split at h
  all_goals first
    | exact (Option.some_ne_none _ h.symm).elim
    | (rw [← Option.some.inj h]; exact ⟨rfl, Or.inl hs⟩)

theorem Scanner.next_keeps (s s' : Scanner) (c : Char) (hs : s.parseState ≠ [])
    (h : s.next c = some s') :
    s'.top = s.top ∧ (s'.parseState ≠ [] ∨ s'.step = ScanStep.endTop) := by
  unfold Scanner.next at h
  split at h
  all_goals (repeat' split at h)
  all_goals first
    | exact (Option.some_ne_none _ h.symm).elim
    | (rw [← Option.some.inj h]; exact ⟨rfl, Or.inl hs⟩)
    | (rw [← Option.some.inj h]; exact Scanner.endString_keeps s hs)
    | exact Scanner.endValue_keeps s s' c hs h
    | exact Scanner.beginValue_keeps s s' c hs h
    | exact Scanner.beginString_keeps s s' c hs h
    | exact Scanner.afterInteger_keeps s s' c hs h
    | exact Scanner.afterExponentSign_keeps s s' c hs h
    | exact Scanner.endValue_keeps
        { s with parseState := ParseState.objectValue :: s.parseState.tail } s' c
        (List.cons_ne_nil _ _) h
    | (obtain ⟨d, -, hd⟩ := Option.map_eq_some'.mp h; rw [← hd]; exact ⟨rfl, Or.inl hs⟩)

theorem Scanner.next_object (s s' : Scanner) (c : Char)
    (hJ : s.top = some JsonTop.object ∧ (s.parseState ≠ [] ∨ s.step = ScanStep.endTop))
    (h : s.next c = some s') :
    s'.top = some JsonTop.object ∧ (s'.parseState ≠ [] ∨ s'.step = ScanStep.endTop) := by
  by_cases hs : s.parseState = []
  · have hstep : s.step = ScanStep.endTop := hJ.2.resolve_left (fun hne => hne hs)
    unfold Scanner.next at h
    rw [hstep] at h
    simp only at h
    split at h
    · rw [← Option.some.inj h]
      exact hJ
    · simp only [reduceCtorEq] at h
  · have hk := Scanner.next_keeps s s' c hs h
    exact ⟨hk.1.trans hJ.1, hk.2⟩

theorem Scanner.run_object (cs : List Char) (s s' : Scanner)
    (hJ : s.top = some JsonTop.object ∧ (s.parseState ≠ [] ∨ s.step = ScanStep.endTop))
    (h : Scanner.run s cs = some s') :
    s'.top = some JsonTop.object ∧ (s'.parseState ≠ [] ∨ s'.step = ScanStep.endTop) := by
  induction cs generalizing s with
  | nil =>
    simp only [Scanner.run] at h
    rw [← Option.some.inj h]
    exact hJ
  | cons c rest ih =>
    simp only [Scanner.run] at h
    cases hn : s.next c with
    | none => rw [hn] at h; simp only [reduceCtorEq] at h
    | some s₁ =>
      rw [hn] at h
      exact ih s₁ (Scanner.next_object s s₁ c hJ hn) h

theorem Scanner.eof_object (s s' : Scanner)
    (hJ : s.top = some JsonTop.object ∧ (s.parseState ≠ [] ∨ s.step = ScanStep.endTop))
    (h : s.eof = some s') : s'.top = some JsonTop.object := by
  unfold Scanner.eof at h
  split at h
  · rw [← Option.some.inj h]
    exact hJ.1
  · cases hn : s.next ' ' with
    | none => rw [hn] at h; simp only [reduceCtorEq] at h
    | some s₁ =>
      rw [hn] at h
      simp only at h
      split at h
      · rw [← Option.some.inj h]
        exact (Scanner.next_object s s₁ ' ' hJ hn).1
      · simp only [reduceCtorEq] at h

theorem data_of_hasPrefix_brace (value : String) (h : stringsHasPrefix value "\x7b" = true) :
    ∃ rest, value.data = '\x7b' :: rest := by
  unfold stringsHasPrefix at h
  cases hd : value.data with
  | nil => rw [hd] at h; exact absurd h (by decide)
  | cons c rest =>
    rw [hd] at h
    have hc : '\x7b' = c := by
      simpa [List.isPrefixOf] using h
    exact ⟨rest, by rw [hc]⟩

theorem jsonDocument_of_brace (value : String) (h : stringsHasPrefix value "\x7b" = true) :
    jsonDocument value = none ∨
      ∃ members, jsonDocument value = some (JsonDocument.object members) := by
  obtain ⟨rest, hrest⟩ := data_of_hasPrefix_brace value h
  unfold jsonDocument
  rw [hrest]
  cases hrun : (Scanner.run {} ('\x7b' :: rest)).bind Scanner.eof with
  | none => exact Or.inl rfl
  | some s' =>
    right
    obtain ⟨s₂, hs₂, heof⟩ := Option.bind_eq_some.mp hrun
    have hfirst : Scanner.run {} ('\x7b' :: rest)
        = Scanner.run (Scanner.mk ScanStep.beginStringOrEmpty [ParseState.objectKey] false []
            0 "" (some JsonTop.object) []) rest := rfl
    rw [hfirst] at hs₂
    have hJ₂ := Scanner.run_object rest _ s₂ ⟨rfl, Or.inl (List.cons_ne_nil _ _)⟩ hs₂
    have htop := Scanner.eof_object s₂ s' hJ₂ heof
    exact ⟨s'.members.reverse, by simp only [htop]⟩

theorem Scanner.run_append (s : Scanner) (a b : List Char) :
    Scanner.run s (a ++ b) = (Scanner.run s a).bind fun s' => Scanner.run s' b := by
  induction a generalizing s with
  | nil => rfl
  | cons c rest ih =>
    simp only [List.cons_append, Scanner.run]
    cases s.next c with
    | none => rfl
    | some s₁ => exact ih s₁

theorem decodeUnits_chars (cs : List Char) :
    decodeUnits none (cs.map StringUnit.char) = cs := by
  induction cs with
  | nil => rfl
  | cons c rest ih => simp [decodeUnits, ih]

theorem Scanner.run_plain (cs : List Char) (hplain : ∀ c ∈ cs, isPlainChar c = true)
    (ps : List ParseState) (eT : Bool) (units : List StringUnit) (hex : Nat) (key : String)
    (top : Option JsonTop) (members : List (String × JsonValue)) :
    Scanner.run ⟨ScanStep.inString, ps, eT, units, hex, key, top, members⟩ cs
      = some ⟨ScanStep.inString, ps, eT, (cs.map StringUnit.char).reverse ++ units, hex, key,
          top, members⟩ := by
  induction cs generalizing units with
  | nil => rfl
  | cons c rest ih =>
    have hc := hplain c (List.mem_cons_self _ _)
    simp only [isPlainChar, Bool.and_eq_true, Bool.not_eq_true', decide_eq_false_iff_not,
      decide_eq_true_eq] at hc
    obtain ⟨⟨h1, h2⟩, h3⟩ := hc
    have h4 : ¬ c.toNat < 0x20 := by omega
    simp only [Scanner.run, Scanner.next, if_neg h1, if_neg h2, if_neg h4]
    rw [ih (fun d hd => hplain d (List.mem_cons_of_mem _ hd))]
    simp

theorem Scanner.run_quoted (cs : List Char) (hplain : ∀ c ∈ cs, isPlainChar c = true)
    (ps : List ParseState) (eT : Bool) (hex : Nat) (key : String)
    (top : Option JsonTop) (members : List (String × JsonValue)) (rest : List Char) :
    Scanner.run ⟨ScanStep.inString, ps, eT, [], hex, key, top, members⟩ (cs ++ '"' :: rest)
      = Scanner.run
          (Scanner.endString ⟨ScanStep.inString, ps, eT, (cs.map StringUnit.char).reverse, hex,
            key, top, members⟩) rest := by
  rw [Scanner.run_append, Scanner.run_plain cs hplain]
  simp only [List.append_nil, Option.some_bind, Scanner.run, Scanner.next, if_true]

theorem Scanner.endString_key (cs : List Char) (eT : Bool) (hex : Nat) (key : String)
    (top : Option JsonTop) (members : List (String × JsonValue)) :
    Scanner.endString ⟨ScanStep.inString, [ParseState.objectKey], eT,
        (cs.map StringUnit.char).reverse, hex, key, top, members⟩
      = ⟨ScanStep.endValue, [ParseState.objectKey], eT, (cs.map StringUnit.char).reverse, hex,
          String.mk cs, top, members⟩ := by
  simp [Scanner.endString, decodeUnits_chars]

theorem Scanner.endString_value (cs : List Char) (eT : Bool) (hex : Nat) (key : String)
    (top : Option JsonTop) (members : List (String × JsonValue)) :
    Scanner.endString ⟨ScanStep.inString, [ParseState.objectValue], eT,
        (cs.map StringUnit.char).reverse, hex, key, top, members⟩
      = ⟨ScanStep.endValue, [ParseState.objectValue], eT, (cs.map StringUnit.char).reverse, hex,
          key, top, (key, JsonValue.string (String.mk cs)) :: members⟩ := by
  simp [Scanner.endString, decodeUnits_chars]

theorem Scanner.run_member (st : ScanStep)
    (hst : st = ScanStep.beginString ∨ st = ScanStep.beginStringOrEmpty)
    (m : String × Option String) (hkey : ∀ c ∈ m.1.data, isPlainChar c = true)
    (hval : ∀ v, m.2 = some v → ∀ c ∈ v.data, isPlainChar c = true)
    (eT : Bool) (units : List StringUnit) (hex : Nat) (key : String)
    (top : Option JsonTop) (members : List (String × JsonValue)) (rest : List Char) :
    ∃ units' key',
      Scanner.run ⟨st, [ParseState.objectKey], eT, units, hex, key, top, members⟩
          (encodeMember m ++ rest)
        = Scanner.run ⟨ScanStep.endValue, [ParseState.objectValue], eT, units', hex, key', top,
            (m.1, memberValue m.2) :: members⟩ rest := by
  obtain ⟨k, v⟩ := m
  have hopen : Scanner.run ⟨st, [ParseState.objectKey], eT, units, hex, key, top, members⟩
      (encodeMember (k, v) ++ rest)
      = Scanner.run ⟨ScanStep.inString, [ParseState.objectKey], eT, [], hex, key, top, members⟩
          (k.data ++ '"' :: (':' :: encodeValue v ++ rest)) := by
    rcases hst with rfl | rfl <;> simp [encodeMember, Scanner.run, Scanner.next,
      Scanner.beginString, isSpace]
  rw [hopen, Scanner.run_quoted k.data hkey, Scanner.endString_key]
  cases v with
  | none =>
    exact ⟨_, _, rfl⟩
  | some v =>
    have hcolon : Scanner.run ⟨ScanStep.endValue, [ParseState.objectKey], eT,
          (k.data.map StringUnit.char).reverse, hex, String.mk k.data, top, members⟩
        (':' :: encodeValue (some v) ++ rest)
        = Scanner.run ⟨ScanStep.inString, [ParseState.objectValue], eT, [], hex,
            String.mk k.data, top, members⟩ (v.data ++ '"' :: rest) := by
      simp [encodeValue, Scanner.run, Scanner.next, Scanner.endValue, Scanner.beginValue,
        Scanner.noteValue, isSpace]
    rw [hcolon, Scanner.run_quoted v.data (hval v rfl), Scanner.endString_value]
    exact ⟨_, _, rfl⟩

theorem Scanner.run_members (ms : List (String × Option String)) (hne : ms ≠ [])
    (hplain : ∀ m ∈ ms, (∀ c ∈ m.1.data, isPlainChar c = true) ∧
      ∀ v, m.2 = some v → ∀ c ∈ v.data, isPlainChar c = true)
    (st : ScanStep) (hst : st = ScanStep.beginString ∨ st = ScanStep.beginStringOrEmpty)
    (eT : Bool) (units : List StringUnit) (hex : Nat) (key : String)
    (top : Option JsonTop) (members : List (String × JsonValue)) (rest : List Char) :
    ∃ units' key',
      Scanner.run ⟨st, [ParseState.objectKey], eT, units, hex, key, top, members⟩
          (encodeMembers ms ++ rest)
        = Scanner.run ⟨ScanStep.endValue, [ParseState.objectValue], eT, units', hex, key', top,
            (ms.map fun m => (m.1, memberValue m.2)).reverse ++ members⟩ rest := by
  induction ms generalizing st units key members with
  | nil => exact absurd rfl hne
  | cons m tail ih =>
    have hm := hplain m (List.mem_cons_self _ _)
    cases tail with
    | nil =>
      obtain ⟨units', key', hrun⟩ := Scanner.run_member st hst m hm.1 hm.2 eT units hex key top
        members rest
      exact ⟨units', key', by simpa [encodeMembers] using hrun⟩
    | cons m₂ tail₂ =>
      obtain ⟨units₁, key₁, hrun⟩ := Scanner.run_member st hst m hm.1 hm.2 eT units hex key top
        members (',' :: (encodeMembers (m₂ :: tail₂) ++ rest))
      obtain ⟨units', key', hrest⟩ := ih (List.cons_ne_nil _ _)
        (fun x hx => hplain x (List.mem_cons_of_mem _ hx)) ScanStep.beginString (Or.inl rfl)
        units₁ key₁ ((m.1, memberValue m.2) :: members)
      refine ⟨units', key', ?_⟩
      have hcomma : Scanner.run ⟨ScanStep.endValue, [ParseState.objectValue], eT, units₁, hex,
            key₁, top, (m.1, memberValue m.2) :: members⟩
          (',' :: (encodeMembers (m₂ :: tail₂) ++ rest))
          = Scanner.run ⟨ScanStep.beginString, [ParseState.objectKey], eT, units₁, hex, key₁,
              top, (m.1, memberValue m.2) :: members⟩ (encodeMembers (m₂ :: tail₂) ++ rest) :=
        rfl
      have henc : encodeMembers (m :: m₂ :: tail₂) ++ rest
          = encodeMember m ++ ',' :: (encodeMembers (m₂ :: tail₂) ++ rest) := by
        simp [encodeMembers]
      rw [henc, hrun, hcomma, hrest]
      simp

theorem jsonDocument_encodeObject (ms : List (String × Option String))
    (hplain : ∀ m ∈ ms, (∀ c ∈ m.1.data, isPlainChar c = true) ∧
      ∀ v, m.2 = some v → ∀ c ∈ v.data, isPlainChar c = true) :
    jsonDocument (encodeObject ms)
      = some (JsonDocument.object (ms.map fun m => (m.1, memberValue m.2))) := by
  cases hms : ms with
  | nil => decide
  | cons m tail =>
    rw [← hms]
    have hne : ms ≠ [] := by rw [hms]; exact List.cons_ne_nil _ _
    obtain ⟨units', key', hrun⟩ := Scanner.run_members ms hne hplain
      ScanStep.beginStringOrEmpty (Or.inr rfl) false [] 0 "" (some JsonTop.object) []
      ['\x7d']
    have hfirst : Scanner.run {} (encodeObject ms).data
        = Scanner.run ⟨ScanStep.beginStringOrEmpty, [ParseState.objectKey], false, [], 0, "",
            some JsonTop.object, []⟩ (encodeMembers ms ++ ['\x7d']) := rfl
    unfold jsonDocument
    rw [hfirst, hrun]
    simp [Scanner.run, Scanner.next, Scanner.endValue, Scanner.pop, Scanner.eof, isSpace]

theorem jsonUnmarshal_of_good_members (message : String → String) (doc : String)
    (members : List (String × JsonValue))
    (hdoc : jsonDocument doc = some (JsonDocument.object members))
    (hgood : ∀ m ∈ members, m.2 ≠ JsonValue.other) :
    jsonUnmarshal message doc
      = Except.ok (members.map fun m => (m.1, m.2.asString.getD "")) := by
  have hall : (members.all fun m => m.2.asString.isSome) = true := by
    rw [List.all_eq_true]
    intro m hm
    have := hgood m hm
    cases hv : m.2 with
    | string v => rfl
    | null => rfl
    | other => exact absurd hv this
  simp only [jsonUnmarshal, hdoc, hall, if_true]

theorem jsonUnmarshal_of_bad_member (message : String → String) (doc : String)
    (members : List (String × JsonValue))
    (hdoc : jsonDocument doc = some (JsonDocument.object members))
    (hbad : ∃ m ∈ members, m.2 = JsonValue.other) :
    jsonUnmarshal message doc = Except.error (message doc) := by
  have hall : (members.all fun m => m.2.asString.isSome) = false := by
    obtain ⟨m, hm, hv⟩ := hbad
    rw [Bool.eq_false_iff]
    intro hall
    rw [List.all_eq_true] at hall
    have := hall m hm
    rw [hv] at this
    exact absurd this (by decide)
  simp only [jsonUnmarshal, hdoc, hall]
  rfl

theorem jsonUnmarshal_of_rejected (message : String → String) (doc : String)
    (hdoc : jsonDocument doc = none) :
    jsonUnmarshal message doc = Except.error (message doc) := by
  simp only [jsonUnmarshal, hdoc]

theorem find?_map_members (members : List (String × JsonValue)) (name : String) :
    ((members.map fun m => (m.1, m.2.asString.getD "")).reverse.find?
        fun kv => decide (kv.1 = name)).map Prod.snd
      = (members.reverse.find? fun m => decide (m.1 = name)).map fun m =>
          m.2.asString.getD "" := by
  rw [← List.map_reverse]
  generalize members.reverse = l
  induction l with
  | nil => rfl
  | cons m rest ih =>
    by_cases hm : m.1 = name
    · simp [List.find?_cons, hm]
    · simpa [List.find?_cons, hm] using ih

theorem ParseFluentdHash_sample_document (message : String → String) :
    ParseFluentdHash (jsonUnmarshal message) "\x7b\"a\":\"integer\"\x7d"
      = ([("a", "integer")], none) := by
  have hdoc : jsonDocument "\x7b\"a\":\"integer\"\x7d"
      = some (JsonDocument.object [("a", JsonValue.string "integer")]) := by decide
  rw [ParseFluentdHash_json_form _ _ (by decide),
    jsonUnmarshal_of_good_members message _ _ hdoc (by decide)]
  rfl

/-- C15, counterexample: the input `\x7b"a":null\x7d` is an object whose member
is `null`, not a string, so it is not an object of string→string; all the
same `ParseFluentdHash` does not fail on it and returns the map a→"". -/
theorem ParseFluentdHash_null_member_counterexample :
    stringsHasPrefix "\x7b\"a\":null\x7d" "\x7b" = true ∧
    jsonDocument "\x7b\"a\":null\x7d" = some (JsonDocument.object [("a", JsonValue.null)]) ∧
    ParseFluentdHash (jsonUnmarshal fun _ => "") "\x7b\"a\":null\x7d" = ([("a", "")], none) := by
  refine ⟨by decide, by decide, by decide⟩

theorem ParseFluentdHash_of_good_members (message : String → String) (value : String)
    (h : stringsHasPrefix value "\x7b" = true) (members : List (String × JsonValue))
    (hdoc : jsonDocument value = some (JsonDocument.object members))
    (hgood : ∀ m ∈ members, m.2 ≠ JsonValue.other) :
    (ParseFluentdHash (jsonUnmarshal message) value).2 = none ∧
    ((ParseFluentdHash (jsonUnmarshal message) value).1.map Prod.fst).Nodup ∧
    ∀ name, (ParseFluentdHash (jsonUnmarshal message) value).1.get? name
      = (members.reverse.find? fun m => decide (m.1 = name)).map fun m =>
          m.2.asString.getD "" := by
  rw [ParseFluentdHash_json_form (jsonUnmarshal message) value h,
    jsonUnmarshal_of_good_members message value members hdoc hgood]
  refine ⟨rfl, foldl_set_nodup_keys _ [] (by simp), fun name => ?_⟩
  simp only
  rw [foldl_set_get?, find?_map_members]
  simp [GoMap.get?]

theorem find?_map_memberValue (ms : List (String × Option String)) (name : String) :
    ((ms.map fun m => (m.1, memberValue m.2)).reverse.find?
        fun m => decide (m.1 = name)).map (fun m => m.2.asString.getD "")
      = (ms.reverse.find? fun m => decide (m.1 = name)).map fun m => m.2.getD "" := by
  rw [← List.map_reverse]
  generalize ms.reverse = l
  induction l with
  | nil => rfl
  | cons m rest ih =>
    obtain ⟨k, v⟩ := m
    by_cases hm : k = name
    · cases v <;> simp [List.find?_cons, hm, memberValue, JsonValue.asString]
    · simpa [List.find?_cons, hm] using ih

/-- C15, amended: an input that begins with an opening brace is either rejected
by the JSON scanner or is an object. `ParseFluentdHash` fails, with the error
of `json.Unmarshal`, when the scanner rejects the input and when some member
of the object is a number, a boolean, an array or an object; otherwise it
succeeds and returns a map with distinct keys that sends each key to the value
of its last member, a string to itself and `null` to the empty string. The
document `\x7b"a":"integer"\x7d` decodes to exactly a→integer, and a section
using it as `types` has no error at `types`. The compact JSON text of any
object whose keys and strings are made of plain characters, with members that
are strings or `null`, is decoded to that object. -/
theorem ParseFluentdHash_json_syntax (message : String → String) (value : String)
    (h : stringsHasPrefix value "\x7b" = true) :
    (jsonDocument value = none ∨
      ∃ members, jsonDocument value = some (JsonDocument.object members)) ∧
    (jsonDocument value = none →
      ParseFluentdHash (jsonUnmarshal message) value
        = ([], some (HashError.json (message value)))) ∧
    (∀ members, jsonDocument value = some (JsonDocument.object members) →
      ((∃ m ∈ members, m.2 = JsonValue.other) →
        ParseFluentdHash (jsonUnmarshal message) value
          = ([], some (HashError.json (message value)))) ∧
      ((∀ m ∈ members, m.2 ≠ JsonValue.other) →
        (ParseFluentdHash (jsonUnmarshal message) value).2 = none ∧
        ((ParseFluentdHash (jsonUnmarshal message) value).1.map Prod.fst).Nodup ∧
        ∀ name, (ParseFluentdHash (jsonUnmarshal message) value).1.get? name
          = (members.reverse.find? fun m => decide (m.1 = name)).map fun m =>
              m.2.asString.getD "")) ∧
    ParseFluentdHash (jsonUnmarshal message) "\x7b\"a\":\"integer\"\x7d"
      = ([("a", "integer")], none) ∧
    (∀ (ord : RangeOrder) (ords : SectionOrders) (path : Path)
      (single : SingleParseSection) (parse : ParseSection),
      single.Types = "\x7b\"a\":\"integer\"\x7d" →
      parse.Types = "\x7b\"a\":\"integer\"\x7d" →
      errorsAt (validateSingleParseSection (jsonUnmarshal message) ord path single)
        (path.Child "types") = 0 ∧
      errorsAt (validateParseSection (jsonUnmarshal message) ords path parse)
        (path.Child "types") = 0) ∧
    (∀ ms : List (String × Option String),
      (∀ m ∈ ms, (∀ c ∈ m.1.data, isPlainChar c = true) ∧
        ∀ v, m.2 = some v → ∀ c ∈ v.data, isPlainChar c = true) →
      (ParseFluentdHash (jsonUnmarshal message) (encodeObject ms)).2 = none ∧
      ((ParseFluentdHash (jsonUnmarshal message) (encodeObject ms)).1.map Prod.fst).Nodup ∧
      ∀ name, (ParseFluentdHash (jsonUnmarshal message) (encodeObject ms)).1.get? name
        = (ms.reverse.find? fun m => decide (m.1 = name)).map fun m => m.2.getD "") := by
  have hform := ParseFluentdHash_json_form (jsonUnmarshal message) value h
  have hsample := ParseFluentdHash_sample_document message
  refine ⟨jsonDocument_of_brace value h, fun hnone => ?_, fun members hdoc => ⟨fun hbad => ?_,
    fun hgood => ParseFluentdHash_of_good_members message value h members hdoc hgood⟩,
    hsample, fun ord ords path single parse hs hp => ?_, fun ms hplain => ?_⟩
  · rw [hform, jsonUnmarshal_of_rejected message value hnone]
  · rw [hform, jsonUnmarshal_of_bad_member message value members hdoc hbad]
  · rw [errorsAt_validateSingleParseSection_types, errorsAt_validateParseSection_types, hs, hp,
      errorsAt_validateTypes_of_ok _ ord path _ (by rw [hsample]),
      errorsAt_validateTypes_of_ok _ ords.own path _ (by rw [hsample]), hsample]
    exact ⟨by decide, by decide⟩
  · have hgoodms : ∀ m ∈ ms.map (fun m => (m.1, memberValue m.2)), m.2 ≠ JsonValue.other := by
      intro m hm
      obtain ⟨x, -, rfl⟩ := List.mem_map.mp hm
      cases x.2 <;> simp [memberValue]
    have hpre : stringsHasPrefix (encodeObject ms) "\x7b" = true := by
      simp [stringsHasPrefix, encodeObject, List.isPrefixOf]
    have hres := ParseFluentdHash_of_good_members message (encodeObject ms) hpre _
      (jsonDocument_encodeObject ms hplain) hgoodms
    refine ⟨hres.1, hres.2.1, fun name => ?_⟩
    rw [hres.2.2 name, find?_map_memberValue]

/-- Witness of the amended C15: a document with two members for one key and a
`null` member, and a document with a number, which is refused. -/
theorem ParseFluentdHash_json_syntax_witness :
    ParseFluentdHash (jsonUnmarshal fun _ => "") "\x7b\"a\":\"x\", \"b\":null, \"a\":\"y\"\x7d"
      = ([("a", "y"), ("b", "")], none) ∧
    (ParseFluentdHash (jsonUnmarshal fun _ => "")
      "\x7b\"a\":\"x\", \"b\":null, \"a\":\"y\"\x7d").1.get? "a" = some "y" ∧
    (ParseFluentdHash (jsonUnmarshal fun _ => "") "\x7b\"a\":1\x7d").2.isSome = true ∧
    (ParseFluentdHash (jsonUnmarshal fun _ => "")
      (encodeObject [("k", some "v w"), ("n", none)])).1.get? "n" = some "" := by
  have hthm := ParseFluentdHash_json_syntax (fun _ => "")
    "\x7b\"a\":\"x\", \"b\":null, \"a\":\"y\"\x7d" (by decide)
  have hnum := ParseFluentdHash_json_syntax (fun _ => "") "\x7b\"a\":1\x7d" (by decide)
  have hgood := hthm.2.2.1
    [("a", JsonValue.string "x"), ("b", JsonValue.null), ("a", JsonValue.string "y")]
    (by decide)
  have hbad := hnum.2.2.1 [("a", JsonValue.other)] (by decide)
  have henc := hthm.2.2.2.2.2 [("k", some "v w"), ("n", none)] (by decide)
  refine ⟨by decide, ?_, ?_, ?_⟩
  · rw [(hgood.2 (by decide)).2.2 "a"]
    decide
  · rw [hbad.1 ⟨("a", JsonValue.other), by decide, rfl⟩]
    rfl
  · rw [henc.2.2 "n"]
    decide

/-- C16, counterexample: the document `\x7b"a":"integer"\x7d` preceded by one
space is not decoded as JSON; it is split as one segment at its first colon,
which differs from the result for the document without the space. -/
theorem ParseFluentdHash_leading_space_counterexample :
    ParseFluentdHash jsonSample "\x7b\"a\":\"integer\"\x7d" = ([("a", "integer")], none) ∧
    ParseFluentdHash jsonSample " \x7b\"a\":\"integer\"\x7d"
      = ([(" \x7b\"a\"", "\"integer\"\x7d")], none) ∧
    ParseFluentdHash jsonSample " \x7b\"a\":\"integer\"\x7d"
      ≠ ParseFluentdHash jsonSample "\x7b\"a\":\"integer\"\x7d" := by
  refine ⟨by decide, by decide, by decide⟩

/-- C16, amended: `ParseFluentdHash` selects the JSON syntax exactly when the
input itself, untrimmed, begins with an opening brace; a non-empty input that
begins with any other character is split as comma and colon segments without
consulting the JSON decoder, in particular an input that begins with a
whitespace character, whatever follows it. -/
theorem ParseFluentdHash_syntax_by_first_character (json : JsonUnmarshal) (value : String) :
    (stringsHasPrefix value "\x7b" = true →
      ParseFluentdHash json value =
        match json value with
        | Except.error msg => ([], some (HashError.json msg))
        | Except.ok members =>
          (members.foldl (fun results kv => results.set kv.1 kv.2) [], none)) ∧
    (value ≠ "" → stringsHasPrefix value "\x7b" = false →
      ParseFluentdHash json value = parseSegments (stringsSplit value ',') []) ∧
    (∀ (c : Char) (rest : String), c.isWhitespace = true →
      ParseFluentdHash json (String.mk (c :: rest.data))
        = parseSegments (stringsSplit (String.mk (c :: rest.data)) ',') []) := by
  refine ⟨ParseFluentdHash_json_form json value, ParseFluentdHash_string_form json value, ?_⟩
  intro c rest hc
  have hbrace : c ≠ '\x7b' := by
    rintro rfl
    exact absurd hc (by decide)
  refine ParseFluentdHash_string_form json _ ?_ ?_
  · intro h
    have := congrArg String.data h
    simp at this
  · have : ¬ '\x7b' = c := fun e => hbrace e.symm
    simp [stringsHasPrefix, List.isPrefixOf, this]

/-- Witness of the amended C16 at a space followed by `\x7b"a":"integer"\x7d`. -/
theorem ParseFluentdHash_syntax_by_first_character_witness :
    ParseFluentdHash jsonSample " \x7b\"a\":\"integer\"\x7d"
      = parseSegments (stringsSplit " \x7b\"a\":\"integer\"\x7d" ',') [] ∧
    ParseFluentdHash jsonSample "\x7b\"a\":\"integer\"\x7d" = ([("a", "integer")], none) := by
  have hthm := ParseFluentdHash_syntax_by_first_character jsonSample
    " \x7b\"a\":\"integer\"\x7d"
  have hjson := (ParseFluentdHash_syntax_by_first_character jsonSample
    "\x7b\"a\":\"integer\"\x7d").1 (by decide)
  exact ⟨hthm.2.1 (by decide) (by decide), hjson.trans rfl⟩

/-! ## Lemmas on the type-token errors -/

theorem validateFieldTypes_eq_map (path : Path) (typesField : String)
    (entries : List (String × String)) :
    validateFieldTypes path typesField entries
      = (entries.filter fun kv => unsupportedToken kv.2).map fun kv =>
          { Type_ := ErrorType.Invalid, Field := path.Child "types",
            BadValue := BadValue.str typesField,
            Detail := Detail.unsupportedFieldType kv.1 (textBeforeFirstColon kv.2)
              validParserFieldTypes.List } := by
  induction entries with
  | nil => simp [validateFieldTypes]
  | cons kv rest ih =>
    obtain ⟨name, typ⟩ := kv
    simp only [validateFieldTypes, stringsSplitN2_head, ih]
    have hdef : unsupportedToken typ = !validParserFieldTypes.Has (textBeforeFirstColon typ) :=
      rfl
    cases hhas : validParserFieldTypes.Has (textBeforeFirstColon typ)
    · have hbad : unsupportedToken typ = true := by rw [hdef, hhas]; rfl
      simp [hbad, fieldInvalid, List.filter_cons]
    · have hbad : unsupportedToken typ = false := by rw [hdef, hhas]; rfl
      simp [hbad, List.filter_cons]

theorem filter_validateTypes_self (json : JsonUnmarshal) (ord : RangeOrder) (path : Path)
    (typesField : String) :
    (validateTypes json ord path typesField).filter
        (fun e => decide (e.Field = path.Child "types"))
      = validateTypes json ord path typesField := by
  rw [List.filter_eq_self]
  intro e he
  simpa using validateTypes_Field json ord path typesField e he

theorem filter_validatePatterns_Child (json : JsonUnmarshal) (ords : Nat → RangeOrder)
    (path : Path) (i : Nat) (patterns : List SingleParseSection) (a : String) :
    (validatePatterns json ords path i patterns).filter
        (fun e => decide (e.Field = path.Child a)) = [] := by
  rw [List.filter_eq_nil_iff]
  intro e he
  have hne := validatePatterns_Field_ne json ords path i patterns (path.Child a)
    (by rw [Path.length_Child]; omega) e he
  simpa using hne

theorem filter_validateSingleParseSection_types (json : JsonUnmarshal) (ord : RangeOrder)
    (path : Path) (single : SingleParseSection) :
    (validateSingleParseSection json ord path single).filter
        (fun e => decide (e.Field = path.Child "types"))
      = validateTypes json ord path single.Types := by
  simp [validateSingleParseSection, List.filter_append, filter_ite, filter_ite_not,
    validateRegexField_eq, Path.Child_inj, fieldRequired_Field, fieldInvalid_Field,
    fieldNotSupported_Field, filter_validateTypes_self]

theorem filter_validateParseSection_types (json : JsonUnmarshal) (ords : SectionOrders)
    (path : Path) (parse : ParseSection) :
    (validateParseSection json ords path parse).filter
        (fun e => decide (e.Field = path.Child "types"))
      = validateTypes json ords.own path parse.Types := by
  simp [validateParseSection, List.filter_append, filter_ite, filter_ite_not,
    validateRegexField_eq, validateMultilineLines_eq, Path.Child_inj, fieldRequired_Field,
    fieldInvalid_Field, fieldNotSupported_Field, filter_validateTypes_self,
    filter_validatePatterns_Child]

theorem validateTypes_sample (json : JsonUnmarshal) (ord : RangeOrder) (path : Path) :
    validateTypes json ord path "a:string,b:time:utc,c:bogus"
      = [{ Type_ := ErrorType.Invalid, Field := path.Child "types",
           BadValue := BadValue.str "a:string,b:time:utc,c:bogus",
           Detail := Detail.unsupportedFieldType "c" "bogus" validParserFieldTypes.List }] := by
  have hdec : ParseFluentdHash json "a:string,b:time:utc,c:bogus"
      = ([("a", "string"), ("b", "time:utc"), ("c", "bogus")], none) := by
    rw [ParseFluentdHash_string_form json _ (by decide) (by decide)]
    decide
  rw [validateTypes_of_ok json ord path _ (by rw [hdec]), validateFieldTypes_eq_map, hdec]
  have hperm := (ord.perm [("a", "string"), ("b", "time:utc"), ("c", "bogus")]).filter
    (fun kv => unsupportedToken kv.2)
  have hfil : List.filter (fun kv : String × String => unsupportedToken kv.2)
      [("a", "string"), ("b", "time:utc"), ("c", "bogus")] = [("c", "bogus")] := by decide
  rw [hfil, List.perm_singleton] at hperm
  simp only
  rw [hperm]
  have hname : textBeforeFirstColon "bogus" = "bogus" := by decide
  simp [hname]

/-! ## Claims on error kinds and on the order of errors -/

/-- C17, counterexample: a section whose `types` is `a:string,b:time:utc,c:bogus`
gets exactly one error, for field `c`, and its kind is Invalid: there is no
error of kind NotSupported at `types`. -/
theorem unsupported_type_token_kind_counterexample :
    validateParseSection jsonRejectAll (SectionOrders.const RangeOrder.insertion) []
        { Type_ := "json", Types := "a:string,b:time:utc,c:bogus" }
      = [{ Type_ := ErrorType.Invalid, Field := [PathElem.name "types"],
           BadValue := BadValue.str "a:string,b:time:utc,c:bogus",
           Detail := Detail.unsupportedFieldType "c" "bogus"
             ["array", "bool", "float", "integer", "string", "time"] }] ∧
    errorsOfTypeAt (validateParseSection jsonRejectAll
        (SectionOrders.const RangeOrder.insertion) []
        { Type_ := "json", Types := "a:string,b:time:utc,c:bogus" })
      ErrorType.NotSupported [PathElem.name "types"] = 0 := by
  refine ⟨by decide, by decide⟩

/-- C17, amended: the errors emitted for the type tokens are one error of kind
Invalid per entry whose type name is outside the field-type vocabulary, each
naming the field and the type name and listing the valid types; a section
whose `types` is `a:string,b:time:utc,c:bogus` gets exactly one error at
`types`, of kind Invalid, identifying field `c`. -/
theorem unsupported_type_token_reported_invalid (json : JsonUnmarshal) (ord : RangeOrder)
    (ords : SectionOrders) (path : Path) (single : SingleParseSection)
    (parse : ParseSection)
    (hs : single.Types = "a:string,b:time:utc,c:bogus")
    (hp : parse.Types = "a:string,b:time:utc,c:bogus") :
    (∀ (typesField : String) (entries : List (String × String)),
      validateFieldTypes path typesField entries
        = (entries.filter fun kv => unsupportedToken kv.2).map fun kv =>
            { Type_ := ErrorType.Invalid, Field := path.Child "types",
              BadValue := BadValue.str typesField,
              Detail := Detail.unsupportedFieldType kv.1 (textBeforeFirstColon kv.2)
                validParserFieldTypes.List }) ∧
    (validateSingleParseSection json ord path single).filter
        (fun e => decide (e.Field = path.Child "types"))
      = [{ Type_ := ErrorType.Invalid, Field := path.Child "types",
           BadValue := BadValue.str "a:string,b:time:utc,c:bogus",
           Detail := Detail.unsupportedFieldType "c" "bogus" validParserFieldTypes.List }] ∧
    (validateParseSection json ords path parse).filter
        (fun e => decide (e.Field = path.Child "types"))
      = [{ Type_ := ErrorType.Invalid, Field := path.Child "types",
           BadValue := BadValue.str "a:string,b:time:utc,c:bogus",
           Detail := Detail.unsupportedFieldType "c" "bogus" validParserFieldTypes.List }] := by
  refine ⟨fun typesField entries => validateFieldTypes_eq_map path typesField entries, ?_, ?_⟩
  · rw [filter_validateSingleParseSection_types, hs, validateTypes_sample]
  · rw [filter_validateParseSection_types, hp, validateTypes_sample]

/-- Witness of the amended C17 on sections that also have other errors. -/
theorem unsupported_type_token_reported_invalid_witness :
    (validateParseSection jsonRejectAll (SectionOrders.const RangeOrder.reversed)
        (NewPath "parse")
        { Type_ := "bogus", Types := "a:string,b:time:utc,c:bogus" }).filter
        (fun e => decide (e.Field = Path.Child (NewPath "parse") "types"))
      = [{ Type_ := ErrorType.Invalid, Field := Path.Child (NewPath "parse") "types",
           BadValue := BadValue.str "a:string,b:time:utc,c:bogus",
           Detail := Detail.unsupportedFieldType "c" "bogus" validParserFieldTypes.List }] :=
  (unsupported_type_token_reported_invalid jsonRejectAll RangeOrder.reversed
    (SectionOrders.const RangeOrder.reversed) (NewPath "parse")
    { Format := "bogus", Types := "a:string,b:time:utc,c:bogus" }
    { Type_ := "bogus", Types := "a:string,b:time:utc,c:bogus" } rfl rfl).2.2

/-- C19, behaviour of the code: a section with a non-empty expression whose
kind is not the literal `regex` gets at `expression` exactly one error, and its
kind is Required although the field is present. -/
theorem present_expression_reported_required (json : JsonUnmarshal) (ord : RangeOrder)
    (ords : SectionOrders) (path : Path) (single : SingleParseSection)
    (parse : ParseSection)
    (hse : single.Expression ≠ "") (hsf : single.Format ≠ "regex")
    (hpe : parse.Expression ≠ "") (hpt : parse.Type_ ≠ "regex") :
    (validateSingleParseSection json ord path single).filter
        (fun e => decide (e.Field = path.Child "expression"))
      = [{ Type_ := ErrorType.Required, Field := path.Child "expression",
           BadValue := BadValue.str "",
           Detail := Detail.text "'expression' can only be specified for regexp parsers" }] ∧
    (validateParseSection json ords path parse).filter
        (fun e => decide (e.Field = path.Child "expression"))
      = [{ Type_ := ErrorType.Required, Field := path.Child "expression",
           BadValue := BadValue.str "",
           Detail := Detail.text "'expression' can only be specified for regexp parsers" }] := by
  refine ⟨?_, ?_⟩
  · simp [validateSingleParseSection, List.filter_append, filter_ite, filter_ite_not,
      validateRegexField_eq, Path.Child_inj, fieldRequired_Field, fieldInvalid_Field,
      fieldNotSupported_Field, filter_validateTypes_other, hse, hsf, fieldRequired]
  · simp [validateParseSection, List.filter_append, filter_ite, filter_ite_not,
      validateRegexField_eq, validateMultilineLines_eq, Path.Child_inj, fieldRequired_Field,
      fieldInvalid_Field, fieldNotSupported_Field, filter_validateTypes_other,
      filter_validatePatterns_Child, hpe, hpt, fieldRequired]

/-- Witness of the C19 evaluation: with kind `json` and the expression `x` the
only error of either validator is the Required error at `expression`. -/
theorem present_expression_reported_required_witness :
    validateSingleParseSection jsonRejectAll RangeOrder.insertion []
        { Format := "json", Expression := "x" }
      = [fieldRequired [PathElem.name "expression"]
          "'expression' can only be specified for regexp parsers"] ∧
    validateParseSection jsonRejectAll (SectionOrders.const RangeOrder.insertion) []
        { Type_ := "json", Expression := "x" }
      = [fieldRequired [PathElem.name "expression"]
          "'expression' can only be specified for regexp parsers"] ∧
    (validateParseSection jsonRejectAll (SectionOrders.const RangeOrder.insertion) []
        { Type_ := "json", Expression := "x" }).filter
        (fun e => decide (e.Field = Path.Child [] "expression"))
      = [{ Type_ := ErrorType.Required, Field := Path.Child [] "expression",
           BadValue := BadValue.str "",
           Detail := Detail.text "'expression' can only be specified for regexp parsers" }] :=
  ⟨by decide, by decide,
    (present_expression_reported_required jsonRejectAll RangeOrder.insertion
      (SectionOrders.const RangeOrder.insertion) [] { Format := "json", Expression := "x" }
      { Type_ := "json", Expression := "x" } (by decide) (by decide) (by decide)
      (by decide)).2⟩

/-- C20, behaviour of the code: the documented string form with a space after
each comma decodes to a map whose keys after the first keep the leading space,
so it has no entry for the names `field2`, `field3` and `field4`. -/
theorem documented_string_form_keeps_spaces (json : JsonUnmarshal) :
    ParseFluentdHash json
        "field1:type, field2:type, field3:type:option, field4:type:option"
      = ([("field1", "type"), (" field2", "type"), (" field3", "type:option"),
          (" field4", "type:option")], none) ∧
    (ParseFluentdHash json
        "field1:type, field2:type, field3:type:option, field4:type:option").1.get? "field2"
      = none ∧
    (ParseFluentdHash json
        "field1:type,field2:type,field3:type:option,field4:type:option")
      = ([("field1", "type"), ("field2", "type"), ("field3", "type:option"),
          ("field4", "type:option")], none) := by
  refine ⟨?_, ?_, ?_⟩ <;>
    rw [ParseFluentdHash_string_form json _ (by decide) (by decide)] <;> decide

/-! ## Lemmas on the dependence on the visiting order -/

theorem eq_of_perm_of_length_le_one {α : Type} {l₁ l₂ : List α} (h : l₁.Perm l₂)
    (hl : l₁.length ≤ 1) : l₁ = l₂ := by
  match l₁, hl with
  | [], _ => exact (List.perm_nil.mp h.symm).symm
  | [a], _ => exact (List.perm_singleton.mp h.symm).symm

theorem validateFieldTypes_perm (path : Path) (typesField : String)
    {l₁ l₂ : List (String × String)} (h : l₁.Perm l₂) :
    (validateFieldTypes path typesField l₁).Perm (validateFieldTypes path typesField l₂) := by
  rw [validateFieldTypes_eq_map, validateFieldTypes_eq_map]
  exact (h.filter _).map _

theorem validateFieldTypes_eq_of_le_one (path : Path) (typesField : String)
    {l₁ l₂ : List (String × String)} (h : l₁.Perm l₂)
    (hl : l₁.countP (fun kv => unsupportedToken kv.2) ≤ 1) :
    validateFieldTypes path typesField l₁ = validateFieldTypes path typesField l₂ := by
  rw [validateFieldTypes_eq_map, validateFieldTypes_eq_map]
  rw [eq_of_perm_of_length_le_one (h.filter fun kv => unsupportedToken kv.2)
    (by rw [← List.countP_eq_length_filter]; exact hl)]

theorem validateTypes_eq (json : JsonUnmarshal) (ord : RangeOrder) (path : Path)
    (typesField : String) :
    validateTypes json ord path typesField
      = (match (ParseFluentdHash json typesField).2 with
          | some e =>
            [fieldInvalid (path.Child "types") (BadValue.str typesField) (Detail.hashError e)]
          | none => [])
        ++ validateFieldTypes path typesField (ord.order (ParseFluentdHash json typesField).1) := by
  unfold validateTypes
  rcases ParseFluentdHash json typesField with ⟨m, err⟩
  rfl

theorem validateTypes_perm (json : JsonUnmarshal) (ord ord' : RangeOrder) (path : Path)
    (typesField : String) :
    (validateTypes json ord path typesField).Perm (validateTypes json ord' path typesField) := by
  rw [validateTypes_eq, validateTypes_eq]
  exact List.Perm.append_left _
    (validateFieldTypes_perm path typesField ((ord.perm _).trans (ord'.perm _).symm))

theorem validateTypes_eq_of_le_one (json : JsonUnmarshal) (ord ord' : RangeOrder) (path : Path)
    (typesField : String) (h : atMostOneUnsupported json typesField = true) :
    validateTypes json ord path typesField = validateTypes json ord' path typesField := by
  rw [validateTypes_eq, validateTypes_eq]
  have hcount : (ord.order (ParseFluentdHash json typesField).1).countP
      (fun kv => unsupportedToken kv.2) ≤ 1 := by
    rw [(ord.perm _).countP_eq]
    simpa [atMostOneUnsupported] using h
  rw [validateFieldTypes_eq_of_le_one path typesField
    ((ord.perm _).trans (ord'.perm _).symm) hcount]

theorem validateSingleParseSection_perm (json : JsonUnmarshal) (ord ord' : RangeOrder)
    (path : Path) (single : SingleParseSection) :
    (validateSingleParseSection json ord path single).Perm
      (validateSingleParseSection json ord' path single) := by
  have hT := validateTypes_perm json ord ord' path single.Types
  unfold validateSingleParseSection
  repeat' first
    | with_reducible exact List.Perm.refl _
    | with_reducible exact hT
    | apply List.Perm.append

theorem validateSingleParseSection_eq_of_le_one (json : JsonUnmarshal) (ord ord' : RangeOrder)
    (path : Path) (single : SingleParseSection)
    (h : atMostOneUnsupported json single.Types = true) :
    validateSingleParseSection json ord path single
      = validateSingleParseSection json ord' path single := by
  unfold validateSingleParseSection
  rw [validateTypes_eq_of_le_one json ord ord' path single.Types h]

theorem validatePatterns_perm (json : JsonUnmarshal) (ords ords' : Nat → RangeOrder)
    (path : Path) (i : Nat) (patterns : List SingleParseSection) :
    (validatePatterns json ords path i patterns).Perm
      (validatePatterns json ords' path i patterns) := by
  induction patterns generalizing i with
  | nil => exact List.Perm.refl _
  | cons pattern rest ih =>
    simp only [validatePatterns]
    exact List.Perm.append (validateSingleParseSection_perm json _ _ _ pattern) (ih (i + 1))

theorem validatePatterns_eq_of_le_one (json : JsonUnmarshal) (ords ords' : Nat → RangeOrder)
    (path : Path) (i : Nat) (patterns : List SingleParseSection)
    (h : ∀ pattern ∈ patterns, atMostOneUnsupported json pattern.Types = true) :
    validatePatterns json ords path i patterns = validatePatterns json ords' path i patterns := by
  induction patterns generalizing i with
  | nil => rfl
  | cons pattern rest ih =>
    simp only [validatePatterns]
    rw [validateSingleParseSection_eq_of_le_one json (ords i) (ords' i) _ pattern
        (h pattern (List.mem_cons_self _ _)),
      ih (i + 1) (fun q hq => h q (List.mem_cons_of_mem _ hq))]

theorem validateParseSection_perm (json : JsonUnmarshal) (ords ords' : SectionOrders)
    (path : Path) (parse : ParseSection) :
    (validateParseSection json ords path parse).Perm
      (validateParseSection json ords' path parse) := by
  have hT := validateTypes_perm json ords.own ords'.own path parse.Types
  have hP := validatePatterns_perm json ords.patterns ords'.patterns path 0 parse.Patterns
  unfold validateParseSection
  repeat' first
    | with_reducible exact List.Perm.refl _
    | with_reducible exact hT
    | with_reducible exact hP
    | apply List.Perm.append

theorem validateParseSection_eq_of_orderFree (json : JsonUnmarshal) (ords ords' : SectionOrders)
    (path : Path) (parse : ParseSection) (h : parse.typesOrderFree json = true) :
    validateParseSection json ords path parse = validateParseSection json ords' path parse := by
  simp only [ParseSection.typesOrderFree, Bool.and_eq_true, List.all_eq_true] at h
  unfold validateParseSection
  rw [validateTypes_eq_of_le_one json ords.own ords'.own path parse.Types h.1,
    validatePatterns_eq_of_le_one json ords.patterns ords'.patterns path 0 parse.Patterns h.2]

theorem validateFilter_perm (json : JsonUnmarshal) (ords ords' : SectionOrders) (path : Path)
    (filter : Filter) :
    (validateFilter json ords path filter).Perm (validateFilter json ords' path filter) := by
  unfold validateFilter ParserConfig.ValidateFields
  cases filter.Parser with
  | none => exact List.Perm.refl _
  | some parser =>
    exact List.Perm.append_left _
      (List.Perm.append_right _ (validateParseSection_perm json ords ords' _ parser.Parse))

theorem validateFilter_eq_of_orderFree (json : JsonUnmarshal) (ords ords' : SectionOrders)
    (path : Path) (filter : Filter)
    (h : ∀ parser, filter.Parser = some parser → parser.Parse.typesOrderFree json = true) :
    validateFilter json ords path filter = validateFilter json ords' path filter := by
  unfold validateFilter ParserConfig.ValidateFields
  cases hp : filter.Parser with
  | none => rfl
  | some parser =>
    simp only [validateParserConfig]
    rw [validateParseSection_eq_of_orderFree json ords ords' _ parser.Parse (h parser hp)]

theorem validateFiltersFrom_perm (json : JsonUnmarshal) (ords ords' : Nat → SectionOrders)
    (path : Path) (i : Nat) (filters : List Filter) :
    (validateFiltersFrom json ords path i filters).Perm
      (validateFiltersFrom json ords' path i filters) := by
  induction filters generalizing i with
  | nil => exact List.Perm.refl _
  | cons filter rest ih =>
    simp only [validateFiltersFrom]
    exact List.Perm.append (validateFilter_perm json _ _ _ filter) (ih (i + 1))

theorem validateFiltersFrom_eq_of_orderFree (json : JsonUnmarshal)
    (ords ords' : Nat → SectionOrders) (path : Path) (i : Nat) (filters : List Filter)
    (h : ∀ filter ∈ filters, ∀ parser, filter.Parser = some parser →
      parser.Parse.typesOrderFree json = true) :
    validateFiltersFrom json ords path i filters
      = validateFiltersFrom json ords' path i filters := by
  induction filters generalizing i with
  | nil => rfl
  | cons filter rest ih =>
    simp only [validateFiltersFrom]
    rw [validateFilter_eq_of_orderFree json (ords i) (ords' i) _ filter
        (h filter (List.mem_cons_self _ _)),
      ih (i + 1) (fun f hf => h f (List.mem_cons_of_mem _ hf))]

/-- C18, counterexample: for a flow with one parser whose `types` is `a:x,b:y`
(two unsupported type names), a run that visits the decoded map in one order
and a run that visits it in the opposite order return the two errors in
different orders. -/
theorem validateFlowSpec_order_counterexample :
    validateFlowSpec jsonRejectAll (fun _ => SectionOrders.const RangeOrder.insertion)
        (NewPath "spec")
        { Filters := [{ Parser := some { Parse := { Type_ := "json", Types := "a:x,b:y" } } }] }
      ≠ validateFlowSpec jsonRejectAll (fun _ => SectionOrders.const RangeOrder.reversed)
        (NewPath "spec")
        { Filters := [{ Parser := some { Parse := { Type_ := "json", Types := "a:x,b:y" } } }] } ∧
    (validateFlowSpec jsonRejectAll (fun _ => SectionOrders.const RangeOrder.insertion)
        (NewPath "spec")
        { Filters := [{ Parser := some { Parse := { Type_ := "json", Types := "a:x,b:y" } } }] }
        ).map (fun e => e.Detail)
      = [Detail.unsupportedFieldType "a" "x" validParserFieldTypes.List,
         Detail.unsupportedFieldType "b" "y" validParserFieldTypes.List] ∧
    (validateFlowSpec jsonRejectAll (fun _ => SectionOrders.const RangeOrder.reversed)
        (NewPath "spec")
        { Filters := [{ Parser := some { Parse := { Type_ := "json", Types := "a:x,b:y" } } }] }
        ).map (fun e => e.Detail)
      = [Detail.unsupportedFieldType "b" "y" validParserFieldTypes.List,
         Detail.unsupportedFieldType "a" "x" validParserFieldTypes.List] := by
  refine ⟨by decide, by decide, by decide⟩

/-! ## Lemmas on the positions of the errors under two visiting orders -/

theorem map_eraseEntry_validateFieldTypes (path : Path) (typesField : String)
    (entries : List (String × String)) :
    (validateFieldTypes path typesField entries).map FieldError.eraseEntry
      = List.replicate (entries.countP fun kv => unsupportedToken kv.2)
          { Type_ := ErrorType.Invalid, Field := path.Child "types",
            BadValue := BadValue.str typesField,
            Detail := Detail.unsupportedFieldType "" "" validParserFieldTypes.List } := by
  rw [validateFieldTypes_eq_map, List.map_map, List.countP_eq_length_filter]
  generalize List.filter (fun kv : String × String => unsupportedToken kv.2) entries = l
  induction l with
  | nil => rfl
  | cons a t ih =>
    rw [List.map_cons, ih]
    rfl

theorem map_eraseEntry_validateTypes (json : JsonUnmarshal) (ord ord' : RangeOrder)
    (path : Path) (typesField : String) :
    (validateTypes json ord path typesField).map FieldError.eraseEntry
      = (validateTypes json ord' path typesField).map FieldError.eraseEntry := by
  rw [validateTypes_eq, validateTypes_eq, List.map_append, List.map_append,
    map_eraseEntry_validateFieldTypes, map_eraseEntry_validateFieldTypes,
    (ord.perm _).countP_eq, (ord'.perm _).countP_eq]

theorem map_eraseEntry_validateSingleParseSection (json : JsonUnmarshal)
    (ord ord' : RangeOrder) (path : Path) (single : SingleParseSection) :
    (validateSingleParseSection json ord path single).map FieldError.eraseEntry
      = (validateSingleParseSection json ord' path single).map FieldError.eraseEntry := by
  unfold validateSingleParseSection
  simp only [List.map_append, map_eraseEntry_validateTypes json ord ord' path single.Types]

theorem map_eraseEntry_validatePatterns (json : JsonUnmarshal) (ords ords' : Nat → RangeOrder)
    (path : Path) (i : Nat) (patterns : List SingleParseSection) :
    (validatePatterns json ords path i patterns).map FieldError.eraseEntry
      = (validatePatterns json ords' path i patterns).map FieldError.eraseEntry := by
  induction patterns generalizing i with
  | nil => rfl
  | cons pattern rest ih =>
    simp only [validatePatterns, List.map_append]
    rw [map_eraseEntry_validateSingleParseSection json (ords i) (ords' i) _ pattern, ih (i + 1)]

theorem map_eraseEntry_validateParseSection (json : JsonUnmarshal) (ords ords' : SectionOrders)
    (path : Path) (parse : ParseSection) :
    (validateParseSection json ords path parse).map FieldError.eraseEntry
      = (validateParseSection json ords' path parse).map FieldError.eraseEntry := by
  unfold validateParseSection
  simp only [List.map_append,
    map_eraseEntry_validateTypes json ords.own ords'.own path parse.Types,
    map_eraseEntry_validatePatterns json ords.patterns ords'.patterns path 0 parse.Patterns]

theorem map_eraseEntry_validateFilter (json : JsonUnmarshal) (ords ords' : SectionOrders)
    (path : Path) (filter : Filter) :
    (validateFilter json ords path filter).map FieldError.eraseEntry
      = (validateFilter json ords' path filter).map FieldError.eraseEntry := by
  unfold validateFilter ParserConfig.ValidateFields
  cases filter.Parser with
  | none => rfl
  | some parser =>
    simp only [validateParserConfig, List.map_append,
      map_eraseEntry_validateParseSection json ords ords' _ parser.Parse]

theorem map_eraseEntry_validateFiltersFrom (json : JsonUnmarshal)
    (ords ords' : Nat → SectionOrders) (path : Path) (i : Nat) (filters : List Filter) :
    (validateFiltersFrom json ords path i filters).map FieldError.eraseEntry
      = (validateFiltersFrom json ords' path i filters).map FieldError.eraseEntry := by
  induction filters generalizing i with
  | nil => rfl
  | cons filter rest ih =>
    simp only [validateFiltersFrom, List.map_append]
    rw [map_eraseEntry_validateFilter json (ords i) (ords' i) _ filter, ih (i + 1)]

theorem eraseEntry_eq_imp (e e' : FieldError)
    (h : FieldError.eraseEntry e = FieldError.eraseEntry e') :
    e.Type_ = e'.Type_ ∧ e.Field = e'.Field ∧ e.BadValue = e'.BadValue ∧
    (e = e' ∨ ∃ name typeName name' typeName' valid,
      e.Detail = Detail.unsupportedFieldType name typeName valid ∧
      e'.Detail = Detail.unsupportedFieldType name' typeName' valid) := by
  obtain ⟨t, f, v, d⟩ := e
  obtain ⟨t', f', v', d'⟩ := e'
  cases d <;> cases d' <;> simp_all [FieldError.eraseEntry]
  exact Or.inr ⟨_, _, _, _, _, ⟨rfl, rfl, rfl⟩, rfl, rfl, rfl⟩

theorem forall₂_of_map_eraseEntry_eq (l₁ l₂ : ErrorList)
    (h : l₁.map FieldError.eraseEntry = l₂.map FieldError.eraseEntry) :
    List.Forall₂ (fun e e' => FieldError.eraseEntry e = FieldError.eraseEntry e') l₁ l₂ := by
  induction l₁ generalizing l₂ with
  | nil =>
    cases l₂ with
    | nil => exact List.Forall₂.nil
    | cons b rest => simp at h
  | cons a rest ih =>
    cases l₂ with
    | nil => simp at h
    | cons b rest' =>
      simp only [List.map_cons, List.cons.injEq] at h
      exact List.Forall₂.cons h.1 (ih rest' h.2)

/-- C18, amended: two runs of the validator on the same flow, whatever the
orders in which they visit the decoded `types` maps, return lists of the same
length that agree position by position on kind, path and offending value; two
errors at the same position are equal, or are both type-token errors that name
different entries; at every path the errors of one run are a permutation of
those of the other; the lists are identical whenever no `types` string of the
flow decodes to a map with two or more entries whose type name is
unsupported. -/
theorem validateFlowSpec_runs_agree (json : JsonUnmarshal) (ords ords' : Nat → SectionOrders)
    (path : Path) (spec : FlowSpec) :
    (validateFlowSpec json ords path spec).map FieldError.eraseEntry
      = (validateFlowSpec json ords' path spec).map FieldError.eraseEntry ∧
    List.Forall₂
      (fun e e' => e.Type_ = e'.Type_ ∧ e.Field = e'.Field ∧ e.BadValue = e'.BadValue ∧
        (e = e' ∨ ∃ name typeName name' typeName' valid,
          e.Detail = Detail.unsupportedFieldType name typeName valid ∧
          e'.Detail = Detail.unsupportedFieldType name' typeName' valid))
      (validateFlowSpec json ords path spec) (validateFlowSpec json ords' path spec) ∧
    (∀ q : Path,
      ((validateFlowSpec json ords path spec).filter fun e => decide (e.Field = q)).Perm
        ((validateFlowSpec json ords' path spec).filter fun e => decide (e.Field = q))) ∧
    (spec.typesOrderFree json = true →
      validateFlowSpec json ords path spec = validateFlowSpec json ords' path spec) := by
  have hmap := map_eraseEntry_validateFiltersFrom json ords ords' (path.Child "filters") 0
    spec.Filters
  have hperm := validateFiltersFrom_perm json ords ords' (path.Child "filters") 0 spec.Filters
  refine ⟨hmap, ?_, fun q => hperm.filter _, fun hfree => ?_⟩
  · exact (forall₂_of_map_eraseEntry_eq _ _ hmap).imp fun e e' h => eraseEntry_eq_imp e e' h
  · refine validateFiltersFrom_eq_of_orderFree json ords ords' _ 0 spec.Filters ?_
    intro filter hfilter parser hparser
    simp only [FlowSpec.typesOrderFree, List.all_eq_true] at hfree
    have := hfree filter hfilter
    rw [hparser] at this
    exact this

/-- Witness of the amended C18: a flow whose `types` has one unsupported entry
gives the same list under opposite visiting orders, and a flow whose `types`
has two gives lists that agree once the named entries are blanked. -/
theorem validateFlowSpec_runs_agree_witness :
    FlowSpec.typesOrderFree jsonRejectAll
      { Filters := [{ Parser := some { Parse :=
          { Type_ := "json", Types := "a:string,b:time:utc,c:bogus" } } }] } = true ∧
    validateFlowSpec jsonRejectAll (fun _ => SectionOrders.const RangeOrder.insertion)
        (NewPath "spec")
        { Filters := [{ Parser := some { Parse :=
          { Type_ := "json", Types := "a:string,b:time:utc,c:bogus" } } }] }
      = validateFlowSpec jsonRejectAll (fun _ => SectionOrders.const RangeOrder.reversed)
        (NewPath "spec")
        { Filters := [{ Parser := some { Parse :=
          { Type_ := "json", Types := "a:string,b:time:utc,c:bogus" } } }] } ∧
    (validateFlowSpec jsonRejectAll (fun _ => SectionOrders.const RangeOrder.insertion)
        (NewPath "spec")
        { Filters := [{ Parser := some { Parse :=
          { Type_ := "bogus", Types := "a:x,b:y", TimeType := "z" } } }] }
        ).map FieldError.eraseEntry
      = (validateFlowSpec jsonRejectAll (fun _ => SectionOrders.const RangeOrder.reversed)
        (NewPath "spec")
        { Filters := [{ Parser := some { Parse :=
          { Type_ := "bogus", Types := "a:x,b:y", TimeType := "z" } } }] }
        ).map FieldError.eraseEntry :=
  ⟨by decide,
    (validateFlowSpec_runs_agree jsonRejectAll
      (fun _ => SectionOrders.const RangeOrder.insertion)
      (fun _ => SectionOrders.const RangeOrder.reversed) (NewPath "spec")
      { Filters := [{ Parser := some { Parse :=
          { Type_ := "json", Types := "a:string,b:time:utc,c:bogus" } } }] }).2.2.2 (by decide),
    (validateFlowSpec_runs_agree jsonRejectAll
      (fun _ => SectionOrders.const RangeOrder.insertion)
      (fun _ => SectionOrders.const RangeOrder.reversed) (NewPath "spec")
      { Filters := [{ Parser := some { Parse :=
          { Type_ := "bogus", Types := "a:x,b:y", TimeType := "z" } } }] }).1⟩

/-! ## Sections that carry an expression -/

theorem errorsAt_validateParseSection_expression (json : JsonUnmarshal) (ords : SectionOrders)
    (path : Path) (parse : ParseSection) :
    errorsAt (validateParseSection json ords path parse) (path.Child "expression")
      = (if parse.Expression = "" ∧ parse.Type_ = "regex" then 1 else 0)
        + (if parse.Expression ≠ "" ∧ parse.Type_ ≠ "regex" then 1 else 0) := by
  simp [validateParseSection, errorsAt_append, errorsAt_ite, errorsAt_ite_not,
    errorsAt_nil, validateRegexField_eq, validateMultilineLines_eq,
    errorsAt_validatePatterns, errorsAt_validateTypes_other, Path.Child_inj,
    fieldRequired_Field, fieldInvalid_Field, fieldNotSupported_Field]

theorem errorsOfTypeAt_validateParseSection_type (json : JsonUnmarshal) (ords : SectionOrders)
    (path : Path) (parse : ParseSection) :
    errorsOfTypeAt (validateParseSection json ords path parse) ErrorType.NotSupported
        (path.Child "type")
      = (if parse.Type_ ∈ validParserTypes.elems then 0 else 1) := by
  by_cases h : parse.Type_ ∈ validParserTypes.elems <;>
    simp [validateParseSection, errorsOfTypeAt_append, errorsOfTypeAt_ite,
      errorsOfTypeAt_ite_not, errorsOfTypeAt_nil, validateRegexField_eq,
      validateMultilineLines_eq, errorsOfTypeAt_validatePatterns,
      errorsOfTypeAt_validateTypes_other, Path.Child_inj, fieldRequired_Field,
      fieldInvalid_Field, fieldNotSupported_Field, fieldRequired_Type, fieldInvalid_Type,
      fieldNotSupported_Type, StringSet.Has_iff, h]

/-- C21: a section with a non-empty expression always gets at least one error
from `validateParseSection`: it has one error at `expression` unless its type
is the literal `regex`; `regex` is not in the type vocabulary, so with that
type it has one NotSupported error at `type` instead; with the enumerated type
`regexp` it has the error at `expression`. -/
theorem section_with_expression_never_valid (json : JsonUnmarshal) (ords : SectionOrders)
    (path : Path) (parse : ParseSection) (hexpr : parse.Expression ≠ "") :
    validateParseSection json ords path parse ≠ [] ∧
    errorsAt (validateParseSection json ords path parse) (path.Child "expression")
      = (if parse.Type_ = "regex" then 0 else 1) ∧
    "regex" ∉ validParserTypes.elems ∧
    (parse.Type_ = "regex" →
      errorsOfTypeAt (validateParseSection json ords path parse) ErrorType.NotSupported
        (path.Child "type") = 1) ∧
    (parse.Type_ = "regexp" →
      errorsAt (validateParseSection json ords path parse) (path.Child "expression") = 1) := by
  have hexp : errorsAt (validateParseSection json ords path parse) (path.Child "expression")
      = (if parse.Type_ = "regex" then 0 else 1) := by
    rw [errorsAt_validateParseSection_expression]
    by_cases ht : parse.Type_ = "regex" <;> simp [hexpr, ht]
  have htype : parse.Type_ = "regex" →
      errorsOfTypeAt (validateParseSection json ords path parse) ErrorType.NotSupported
        (path.Child "type") = 1 := by
    intro ht
    rw [errorsOfTypeAt_validateParseSection_type, ht]
    decide
  refine ⟨?_, hexp, by decide, htype, ?_⟩
  · intro hnil
    by_cases ht : parse.Type_ = "regex"
    · have h1 := htype ht
      rw [hnil, errorsOfTypeAt_nil] at h1
      exact absurd h1 (by decide)
    · rw [hnil, if_neg ht, errorsAt_nil] at hexp
      exact absurd hexp (by decide)
  · intro ht
    rw [hexp, ht]
    decide

/-- Witness of C21 at the types `regexp` and `regex` with the expression `x`. -/
theorem section_with_expression_never_valid_witness :
    validateParseSection jsonRejectAll (SectionOrders.const RangeOrder.insertion) []
        { Type_ := "regexp", Expression := "x" } ≠ [] ∧
    errorsAt (validateParseSection jsonRejectAll (SectionOrders.const RangeOrder.insertion) []
        { Type_ := "regexp", Expression := "x" }) (Path.Child [] "expression") = 1 ∧
    errorsOfTypeAt (validateParseSection jsonRejectAll
        (SectionOrders.const RangeOrder.insertion) []
        { Type_ := "regex", Expression := "x" }) ErrorType.NotSupported (Path.Child [] "type")
      = 1 := by
  have h1 := section_with_expression_never_valid jsonRejectAll
    (SectionOrders.const RangeOrder.insertion) [] { Type_ := "regexp", Expression := "x" }
    (by decide)
  have h2 := section_with_expression_never_valid jsonRejectAll
    (SectionOrders.const RangeOrder.insertion) [] { Type_ := "regex", Expression := "x" }
    (by decide)
  exact ⟨h1.1, h1.2.2.2.2 rfl, h2.2.2.2.1 rfl⟩

end LoggingOperator
